import Mathlib

/-!
Shallow embedding of the receive-ring management and frame-reassembly
subsystem of `core/dp/htt/htt_rx.c` (wlan-qca-wifi-host-cmn), together with
proofs and refutations of the specification's testable properties.

Conventions:
* C `int` values that can go negative are modelled as `Int`; C unsigned
  values and array indices as `Nat`; casts such as `(unsigned int)x` are
  modelled explicitly as reduction modulo `2^32`.
* Buffers (`qdf_nbuf_t`) are identifiers (`Nat`); the mutable network-buffer
  heap is modelled as explicit functions from buffer id to packet length and
  to the `next` pointer.
* External effects that have no bearing on the verified properties
  (tracing, statistics, DMA map/unmap, timers) are omitted; recovery/abort
  invocations (`cds_trigger_recovery` / `HTT_ASSERT_ALWAYS`) are recorded
  explicitly because the error-handling claims are about them.
-/

namespace HttRx

/-! ### Constants (htt_rx.c lines 62-100) -/

def HTT_RX_RING_SIZE_MIN : Nat := 128

def HTT_RX_RING_SIZE_MAX : Nat := 2048

def HTT_RX_AVG_FRM_BYTES : Nat := 1000

def HTT_RX_HOST_LATENCY_MAX_MS : Nat := 20

/-- `HTT_RX_HOST_LATENCY_WORST_LIKELY_MS` is 20 under `QCA_WIFI_3_0` and 10
otherwise (htt_rx.c lines 79-85); it is kept as an explicit argument of
`htt_rx_ring_fill_level` below. -/
def HTT_RX_HOST_LATENCY_WORST_LIKELY_MS_QCA_WIFI_3_0 : Nat := 20

def RX_NUM_HASH_BUCKETS : Nat := 1024

def RX_NUM_HASH_BUCKETS_MASK : Nat := RX_NUM_HASH_BUCKETS - 1

def RX_ENTRIES_SIZE : Nat := 10

/-- `RX_HASH_FUNCTION(a)`: `((a >> 14) ^ (a >> 4)) & RX_NUM_HASH_BUCKETS_MASK`
(htt_rx.c line 100). -/
def RX_HASH_FUNCTION (a : Nat) : Nat :=
  ((a >>> 14) ^^^ (a >>> 4)) &&& RX_NUM_HASH_BUCKETS_MASK

/-- `QDF_IS_PWR2(value)`: `(value ^ (value - 1)) == (2 * value - 1)`,
equivalently `value & (value - 1) == 0` for the values at hand; the qdf
headers are not part of the sources, so this follows the standard
power-of-two test the ring code relies on. -/
def QDF_IS_PWR2 (n : Nat) : Bool := n &&& (n - 1) == 0

/-- Helper for `qdf_get_pwr2`: number of binary digits, computed with
explicit fuel so that it is a structural recursion (the fuel `n` always
suffices for input `n`, mirroring the `while (value) { value >>= 1; log2++; }`
loop of the qdf helper). -/
def bitLenAux : Nat → Nat → Nat
  | 0, _ => 0
  | fuel + 1, n => if n = 0 then 0 else bitLenAux fuel (n / 2) + 1

/-- Modelled from the spec: `qdf_get_pwr2` ("rounded up to the next power of
two", spec §4.1); the qdf utility header is not among the sources.  A value
that is already a power of two is returned unchanged, anything else is
rounded up to `2 ^ (number of binary digits)`. -/
def qdf_get_pwr2 (n : Nat) : Nat :=
  if QDF_IS_PWR2 n then n else 2 ^ bitLenAux n n

/-- `htt_rx_ring_size` (htt_rx.c lines 541-575): throughput/latency formula,
clamped to `[HTT_RX_RING_SIZE_MIN, HTT_RX_RING_SIZE_MAX]`, then rounded to a
power of two.  `mbps` is `ol_cfg_max_thruput_mbps(pdev->ctrl_pdev)`. -/
def htt_rx_ring_size (mbps : Nat) : Nat :=
  let size := mbps * 1000 / (8 * HTT_RX_AVG_FRM_BYTES) * HTT_RX_HOST_LATENCY_MAX_MS
  let size :=
    if size < HTT_RX_RING_SIZE_MIN then HTT_RX_RING_SIZE_MIN
    else if size > HTT_RX_RING_SIZE_MAX then HTT_RX_RING_SIZE_MAX
    else size
  qdf_get_pwr2 size

/-- `htt_rx_ring_fill_level` (htt_rx.c lines 577-596): throughput/latency
formula rounded up to a power of two, then clamped to at most
`ring_size - 1`.  Note: unlike `htt_rx_ring_size`, there is no minimum
clamp. -/
def htt_rx_ring_fill_level (mbps ringSize latencyWorstLikelyMs : Nat) : Nat :=
  let size := qdf_get_pwr2 (mbps * 1000 / (8 * HTT_RX_AVG_FRM_BYTES) * latencyWorstLikelyMs)
  if size ≥ ringSize then ringSize - 1 else size

/-! ### Chained-MSDU tail trim (htt_rx_amsdu_pop_ll, htt_rx.c lines 1348-1374)

`msdu_len` is a C `int`; each chained buffer subtracts `HTT_RX_BUF_SIZE`
from it, and the final buffer of the chain is trimmed after an unsigned
comparison clamps the residual to the usable capacity
`HTT_RX_BUF_SIZE - RX_STD_DESC_SIZE`.  `HTT_RX_BUF_SIZE` and
`RX_STD_DESC_SIZE` come from htt_internal.h (not among the sources), so they
are kept as parameters `BUF` and `DESC`. -/

/-- C cast `(unsigned int) x` of a 32-bit `int`. -/
def c2u32 (x : Int) : Nat := (x % (2 ^ 32 : Int)).toNat

/-- Residual length when the last buffer of a chain of `chained + 1` buffers
is reached: the loop executes `msdu_len -= HTT_RX_BUF_SIZE` once per chained
buffer (htt_rx.c line 1351). -/
def chainResidual (BUF msdu_len : Int) (chained : Nat) : Int :=
  msdu_len - chained * BUF

/-- The clamp at htt_rx.c lines 1361-1367:
`if ((unsigned int)msdu_len > (unsigned int)(HTT_RX_BUF_SIZE - RX_STD_DESC_SIZE))
     msdu_len = HTT_RX_BUF_SIZE - RX_STD_DESC_SIZE;`. -/
def clampChainLen (BUF DESC residual : Int) : Int :=
  if c2u32 residual > c2u32 (BUF - DESC) then BUF - DESC else residual

/-- The trim passed to `qdf_nbuf_trim_tail` for the final chained buffer
(htt_rx.c lines 1369-1372): `HTT_RX_BUF_SIZE - (RX_STD_DESC_SIZE + msdu_len)`
after the clamp. -/
def chainTrimAmount (BUF DESC residual : Int) : Int :=
  BUF - (DESC + clampChainLen BUF DESC residual)

theorem clampChainLen_bounds (BUF DESC residual : Int)
    (_hd : 0 ≤ DESC) (hdb : DESC ≤ BUF) (hcap : BUF - DESC < 2 ^ 31)
    (hlo : -(2 ^ 31) ≤ residual) (hhi : residual < 2 ^ 31) :
    0 ≤ clampChainLen BUF DESC residual ∧
      clampChainLen BUF DESC residual ≤ BUF - DESC := by
  have hcap0 : (0 : Int) ≤ BUF - DESC := by omega
  have hcapmod : (BUF - DESC) % (2 ^ 32 : Int) = BUF - DESC :=
    Int.emod_eq_of_lt hcap0 (by omega)
  by_cases hneg : residual < 0
  · have h1 : (residual + 2 ^ 32 * 1) % (2 ^ 32 : Int) = residual % 2 ^ 32 :=
      Int.add_mul_emod_self_left residual (2 ^ 32) 1
    have h2 : (residual + 2 ^ 32 * 1) % (2 ^ 32 : Int) = residual + 2 ^ 32 * 1 :=
      Int.emod_eq_of_lt (by omega) (by omega)
    have hmod : residual % (2 ^ 32 : Int) = residual + 2 ^ 32 := by omega
    simp only [clampChainLen, c2u32, hmod, hcapmod]
    split <;> omega
  · have hmod : residual % (2 ^ 32 : Int) = residual :=
      Int.emod_eq_of_lt (by omega) (by omega)
    simp only [clampChainLen, c2u32, hmod, hcapmod]
    split <;> omega

/-- C5: for every residual length of a chained MSDU, including values that
have underflowed below zero or exceed the remaining capacity, the tail trim
applied to the final buffer of the chain is non-negative and at most the
usable capacity `BUF - DESC`: it never underflows or wraps around. -/
theorem chained_trim_no_underflow (BUF DESC msdu_len : Int) (chained : Nat)
    (_hd : 0 ≤ DESC) (hdb : DESC ≤ BUF) (hcap : BUF - DESC < 2 ^ 31)
    (hlo : -(2 ^ 31) ≤ chainResidual BUF msdu_len chained)
    (hhi : chainResidual BUF msdu_len chained < 2 ^ 31) :
    0 ≤ chainTrimAmount BUF DESC (chainResidual BUF msdu_len chained) ∧
      chainTrimAmount BUF DESC (chainResidual BUF msdu_len chained) ≤ BUF - DESC := by
  have h := clampChainLen_bounds BUF DESC (chainResidual BUF msdu_len chained)
    _hd hdb hcap hlo hhi
  unfold chainTrimAmount
  omega

/-- Witness for C5 at `BUF = 2048`, `DESC = 256`, a declared length of 100
spanning 3 chained buffers (residual `100 - 3*2048 = -6044`, i.e. an
underflowed length). -/
theorem chained_trim_no_underflow_witness :
    0 ≤ chainTrimAmount 2048 256 (chainResidual 2048 100 3) ∧
      chainTrimAmount 2048 256 (chainResidual 2048 100 3) ≤ 2048 - 256 :=
  chained_trim_no_underflow 2048 256 100 3 (by decide) (by decide) (by decide)
    (by decide) (by decide)

/-! ### Ring refill: `htt_rx_ring_fill_n` (htt_rx.c lines 394-538)

The function reads the shared write index `*pdev->rx_ring.alloc_idx.vaddr`,
validates it together with the request, runs the `while (num > 0)` fill
loop (allocate / map / insert, then record the physical address, advance the
masked index and bump `fill_cnt`), serves any pending refill debt by jumping
back to `moretofill:`, and finally publishes the advanced index.

Failures of allocation (and of mapping / hash insertion, which the code
handles with the same `goto update_alloc_idx`) are modelled by an oracle
`allocOk : Nat → Bool`, consulted with the number of buffers filled so far
in this call.  The refill debt is read but never written by this function;
the model treats it as a fixed field.  `cds_trigger_recovery` /
`HTT_ASSERT_ALWAYS` invocations are recorded in a `fatal` field;
`htt_rx_ring_fill_n` contains none, on any path. -/

/-- Recovery/abort actions of the error-handling design ("trigger
full-system recovery if available, else abort"). -/
inductive FatalKind where
  | recover : FatalKind
  | abort : FatalKind
deriving DecidableEq

/-- The fields of `pdev->rx_ring` used by `htt_rx_ring_fill_n`. -/
structure RxRing where
  size : Nat
  size_mask : Nat
  /-- shared-memory value `*alloc_idx.vaddr`, read as a C `int`. -/
  alloc_idx : Int
  fill_cnt : Nat
  /-- `qdf_atomic_read(&rx_ring.refill_debt)`. -/
  refill_debt : Int
deriving DecidableEq

/-- Local state of the fill loop: `idx`, `pdev->rx_ring.fill_cnt`, `filled`,
and whether a buffer acquisition failed (the `goto update_alloc_idx`
paths). -/
structure FillSt where
  idx : Nat
  fill_cnt : Nat
  filled : Nat
  failed : Bool
deriving DecidableEq

/-- The inner `while (num > 0)` loop (htt_rx.c lines 419-519): per
iteration, acquire a buffer (`allocOk`), store it, record the address,
`num--; idx++; filled++; idx &= size_mask; fill_cnt++`.  On acquisition
failure the loop is abandoned (`goto update_alloc_idx`). -/
def fillLoop (mask : Nat) (allocOk : Nat → Bool) : Nat → FillSt → FillSt
  | 0, st => st
  | n + 1, st =>
    if allocOk st.filled then
      fillLoop mask allocOk n
        { idx := (st.idx + 1) &&& mask, fill_cnt := st.fill_cnt + 1,
          filled := st.filled + 1, failed := false }
    else { st with failed := true }

/-- The `moretofill:` loop (htt_rx.c lines 418-525): run the fill loop, then
`if (debt_served < refill_debt) { num = refill_debt; debt_served += num;
goto moretofill; }`.  The C loop has no structural bound, so it is modelled
with explicit fuel: `none` means the fuel was exhausted before the loop
terminated; `some (st, gotos)` gives the final state and how many times the
`goto` was taken.  `serveLoop_halts` below proves fuel 2 always suffices
(the claim C8), and `serveLoop_fuel_irrelevant` that larger fuels agree. -/
def serveLoop (mask : Nat) (allocOk : Nat → Bool) (debt : Int) :
    Nat → Nat → Nat → FillSt → Option (FillSt × Nat)
  | 0, _, _, _ => none
  | fuel + 1, num, debt_served, st =>
    let st1 := fillLoop mask allocOk num st
    if st1.failed then some (st1, 0)
    else if (debt_served : Int) < debt then
      (serveLoop mask allocOk debt fuel debt.toNat (debt_served + debt.toNat) st1).map
        (fun r => (r.1, r.2 + 1))
    else some (st1, 0)

/-- Result of `htt_rx_ring_fill_n`: the updated ring, the return value
`filled`, the value written to the hardware-visible `*alloc_idx.vaddr`
(`none` when the entry guard fails and the function returns without
publishing), the number of `goto moretofill` repetitions, and any
recovery/abort action (always `none`: this function has no fatal path). -/
structure FillResult where
  ring : RxRing
  filled : Nat
  published : Option Int
  gotos : Nat
  fatal : Option FatalKind
deriving DecidableEq

/-- `htt_rx_ring_fill_n` (htt_rx.c lines 394-538).  The entry guard
(lines 410-416) rejects a negative or out-of-range index and a request
larger than the ring, logging and returning 0 without publishing.
Otherwise the `moretofill` loop runs and the final index is published. -/
def htt_rx_ring_fill_n (allocOk : Nat → Bool) (r : RxRing) (num : Int) : FillResult :=
  let idx := r.alloc_idx
  if idx < 0 ∨ idx > (r.size_mask : Int) ∨ num > (r.size : Int) then
    { ring := r, filled := 0, published := none, gotos := 0, fatal := none }
  else
    match serveLoop r.size_mask allocOk r.refill_debt 2 num.toNat 0
        ⟨idx.toNat, r.fill_cnt, 0, false⟩ with
    | some (st, g) =>
      { ring := { r with alloc_idx := (st.idx : Int), fill_cnt := st.fill_cnt },
        filled := st.filled, published := some (st.idx : Int), gotos := g,
        fatal := none }
    | none =>
      { ring := r, filled := 0, published := none, gotos := 0, fatal := none }

/-- One run of `htt_rx_ring_fill_n` with an always-succeeding allocator, as
invoked in the C1 trace claims. -/
def fill1 (r : RxRing) (num : Int) : FillResult :=
  htt_rx_ring_fill_n (fun _ => true) r num

/-- A sequence of fill calls; records each call's pre-state and result. -/
def runFills : RxRing → List Int → List (RxRing × FillResult)
  | _, [] => []
  | r, n :: ns =>
    let res := fill1 r n
    (r, res) :: runFills res.ring ns

lemma fillLoop_filled_le (mask : Nat) (ok : Nat → Bool) (n : Nat) :
    ∀ st : FillSt, (fillLoop mask ok n st).filled ≤ st.filled + n := by
  induction n with
  | zero => intro st; simp [fillLoop]
  | succ n ih =>
    intro st
    rw [fillLoop]
    by_cases h : ok st.filled
    · rw [if_pos h]
      exact le_trans (ih _) (by simp; omega)
    · rw [if_neg h]
      simp

lemma fillLoop_all_ok (k : Nat) (ok : Nat → Bool) (hall : ∀ t, ok t = true) (n : Nat) :
    ∀ st : FillSt, st.idx < 2 ^ k → st.failed = false →
      fillLoop (2 ^ k - 1) ok n st =
        ⟨(st.idx + n) % 2 ^ k, st.fill_cnt + n, st.filled + n, false⟩ := by
  induction n with
  | zero =>
    intro st hidx hf
    obtain ⟨i, c, f, b⟩ := st
    simp only at hf
    subst hf
    simp [fillLoop, Nat.mod_eq_of_lt hidx]
  | succ n ih =>
    intro st hidx hf
    rw [fillLoop, hall st.filled, if_pos rfl]
    have hmask : (st.idx + 1) &&& (2 ^ k - 1) = (st.idx + 1) % 2 ^ k :=
      Nat.and_pow_two_sub_one_eq_mod _ k
    rw [ih _ (by rw [hmask]; exact Nat.mod_lt _ (Nat.two_pow_pos k)) rfl]
    simp only [hmask, FillSt.mk.injEq]
    refine ⟨?_, by omega, by omega, trivial⟩
    rw [Nat.mod_add_mod]
    congr 1
    omega

lemma serveLoop_succ (mask : Nat) (ok : Nat → Bool) (debt : Int)
    (fuel num ds : Nat) (st : FillSt) :
    serveLoop mask ok debt (fuel + 1) num ds st =
      if (fillLoop mask ok num st).failed then some (fillLoop mask ok num st, 0)
      else if (ds : Int) < debt then
        (serveLoop mask ok debt fuel debt.toNat (ds + debt.toNat)
          (fillLoop mask ok num st)).map (fun r => (r.1, r.2 + 1))
      else some (fillLoop mask ok num st, 0) := rfl

lemma serveLoop_two (mask : Nat) (ok : Nat → Bool) (debt : Int)
    (num ds : Nat) (st : FillSt) :
    serveLoop mask ok debt 2 num ds st =
      if (fillLoop mask ok num st).failed then some (fillLoop mask ok num st, 0)
      else if (ds : Int) < debt then
        (serveLoop mask ok debt 1 debt.toNat (ds + debt.toNat)
          (fillLoop mask ok num st)).map (fun r => (r.1, r.2 + 1))
      else some (fillLoop mask ok num st, 0) := rfl

lemma serveLoop_one (mask : Nat) (ok : Nat → Bool) (debt : Int)
    (num ds : Nat) (st : FillSt) :
    serveLoop mask ok debt 1 num ds st =
      if (fillLoop mask ok num st).failed then some (fillLoop mask ok num st, 0)
      else if (ds : Int) < debt then
        (serveLoop mask ok debt 0 debt.toNat (ds + debt.toNat)
          (fillLoop mask ok num st)).map (fun r => (r.1, r.2 + 1))
      else some (fillLoop mask ok num st, 0) := rfl

lemma serveLoop_all_ok (k : Nat) (ok : Nat → Bool) (hall : ∀ t, ok t = true)
    (debt : Int) (num : Nat) (st : FillSt) (hidx : st.idx < 2 ^ k)
    (hf : st.failed = false) :
    serveLoop (2 ^ k - 1) ok debt 2 num 0 st =
      some (⟨(st.idx + (num + debt.toNat)) % 2 ^ k,
             st.fill_cnt + (num + debt.toNat),
             st.filled + (num + debt.toNat), false⟩,
            if 0 < debt then 1 else 0) := by
  rw [serveLoop_two, fillLoop_all_ok k ok hall num st hidx hf]
  by_cases hd : (0 : Int) < debt
  · have hguard : (((0 : Nat) : Int) < debt) := by exact_mod_cast hd
    rw [if_neg (by simp), if_pos hguard, serveLoop_one,
      fillLoop_all_ok k ok hall debt.toNat _ (Nat.mod_lt _ (Nat.two_pow_pos k)) rfl]
    have hns : ¬ ((((0 : Nat) + debt.toNat : Nat) : Int) < debt) := by
      push_cast
      omega
    rw [if_neg (by simp), if_neg hns, Option.map_some']
    rw [if_pos hd]
    simp only [Option.some.injEq, Prod.mk.injEq, FillSt.mk.injEq]
    refine ⟨⟨?_, by omega, by omega, trivial⟩, trivial⟩
    rw [Nat.mod_add_mod]
    congr 1
    omega
  · rw [if_neg (by simp), if_neg (by exact_mod_cast hd), if_neg hd]
    have h0 : debt.toNat = 0 := by omega
    simp [h0]

/-- C8: the `moretofill` refill loop of `htt_rx_ring_fill_n` terminates for
every request when the refill-debt counter is fixed (not concurrently
increased during the call): fuel 2 always suffices (the `goto moretofill`
is taken at most once), any larger fuel yields the same result, and the
total number of buffers filled is bounded by `num + debt`. -/
theorem moretofill_loop_terminates (mask : Nat) (allocOk : Nat → Bool)
    (debt : Int) (num : Nat) (st : FillSt) :
    ∃ st' gotos,
      serveLoop mask allocOk debt 2 num 0 st = some (st', gotos) ∧
      gotos ≤ 1 ∧
      st'.filled ≤ st.filled + num + debt.toNat ∧
      ∀ extra, serveLoop mask allocOk debt (2 + extra) num 0 st = some (st', gotos) := by
  have hunf : ∀ fuel, serveLoop mask allocOk debt (fuel + 1) num 0 st =
      if (fillLoop mask allocOk num st).failed
      then some (fillLoop mask allocOk num st, 0)
      else if ((0 : Nat) : Int) < debt then
        (serveLoop mask allocOk debt fuel debt.toNat (0 + debt.toNat)
          (fillLoop mask allocOk num st)).map (fun r => (r.1, r.2 + 1))
      else some (fillLoop mask allocOk num st, 0) :=
    fun fuel => serveLoop_succ mask allocOk debt fuel num 0 st
  set st1 := fillLoop mask allocOk num st with hst1
  have h1 : st1.filled ≤ st.filled + num := fillLoop_filled_le mask allocOk num st
  have h2e : ∀ extra : Nat, 2 + extra = (1 + extra) + 1 := by omega
  by_cases hfail : st1.failed = true
  · refine ⟨st1, 0, ?_, by omega, by omega, ?_⟩
    · rw [serveLoop_two, ← hst1, if_pos hfail]
    · intro extra
      rw [h2e extra, hunf (1 + extra), if_pos hfail]
  · have hunf2 : ∀ fuel, serveLoop mask allocOk debt (fuel + 1) debt.toNat
        (0 + debt.toNat) st1 =
        if (fillLoop mask allocOk debt.toNat st1).failed
        then some (fillLoop mask allocOk debt.toNat st1, 0)
        else if ((0 + debt.toNat : Nat) : Int) < debt then
          (serveLoop mask allocOk debt fuel debt.toNat
            (0 + debt.toNat + debt.toNat)
            (fillLoop mask allocOk debt.toNat st1)).map (fun r => (r.1, r.2 + 1))
        else some (fillLoop mask allocOk debt.toNat st1, 0) :=
      fun fuel => serveLoop_succ mask allocOk debt fuel debt.toNat (0 + debt.toNat) st1
    by_cases hd : ((0 : Nat) : Int) < debt
    · set st2 := fillLoop mask allocOk debt.toNat st1 with hst2
      have h2 : st2.filled ≤ st1.filled + debt.toNat :=
        fillLoop_filled_le mask allocOk debt.toNat st1
      have hstop : ¬ (((0 : Nat) + debt.toNat : Nat) : Int) < debt := by
        push_cast
        omega
      by_cases hfail2 : st2.failed = true
      · refine ⟨st2, 1, ?_, by omega, by omega, ?_⟩
        · rw [serveLoop_two, ← hst1, if_neg hfail, if_pos hd, serveLoop_one,
            ← hst2, if_pos hfail2]
          rfl
        · intro extra
          rw [h2e extra, hunf (1 + extra), if_neg hfail, if_pos hd,
            show (1 + extra : Nat) = extra + 1 from by omega,
            hunf2 extra, if_pos hfail2]
          rfl
      · refine ⟨st2, 1, ?_, by omega, by omega, ?_⟩
        · rw [serveLoop_two, ← hst1, if_neg hfail, if_pos hd, serveLoop_one,
            ← hst2, if_neg hfail2, if_neg hstop]
          rfl
        · intro extra
          rw [h2e extra, hunf (1 + extra), if_neg hfail, if_pos hd,
            show (1 + extra : Nat) = extra + 1 from by omega,
            hunf2 extra, if_neg hfail2, if_neg hstop]
          rfl
    · refine ⟨st1, 0, ?_, by omega, by omega, ?_⟩
      · rw [serveLoop_two, ← hst1, if_neg hfail, if_neg hd]
      · intro extra
        rw [h2e extra, hunf (1 + extra), if_neg hfail, if_neg hd]

/-- Closed form of `htt_rx_ring_fill_n` when no buffer acquisition fails:
starting from a well-formed ring, a guard-passing call fills
`num.toNat + refill_debt.toNat` buffers, advances `fill_cnt` by that amount
and publishes `(start index + filled) % size`. -/
lemma fill_n_all_ok (k : Nat) (r : RxRing) (num : Int)
    (hsize : r.size = 2 ^ k) (hmask : r.size_mask = r.size - 1)
    (hidx0 : 0 ≤ r.alloc_idx) (hidx1 : r.alloc_idx ≤ (r.size_mask : Int))
    (hnum : num ≤ (r.size : Int)) :
    fill1 r num =
      { ring := { r with
          alloc_idx :=
            ((r.alloc_idx.toNat + (num.toNat + r.refill_debt.toNat)) % r.size : Nat),
          fill_cnt := r.fill_cnt + (num.toNat + r.refill_debt.toNat) },
        filled := num.toNat + r.refill_debt.toNat,
        published :=
          some (((r.alloc_idx.toNat + (num.toNat + r.refill_debt.toNat)) % r.size : Nat) : Int),
        gotos := if 0 < r.refill_debt then 1 else 0,
        fatal := none } := by
  have hpos : 0 < 2 ^ k := Nat.two_pow_pos k
  unfold fill1 htt_rx_ring_fill_n
  rw [if_neg (by push_cast [hmask, hsize] at hidx1 hnum ⊢; omega)]
  have hidxlt : r.alloc_idx.toNat < 2 ^ k := by
    rw [hmask, hsize] at hidx1
    omega
  rw [hmask, hsize,
    serveLoop_all_ok k (fun _ => true) (fun _ => rfl) r.refill_debt num.toNat
      ⟨r.alloc_idx.toNat, r.fill_cnt, 0, false⟩ hidxlt rfl]
  simp [hsize]

/-- Per-call admissibility of a trace of `fill(n)` calls: each request fits
the ring's free space (`num ≤ size` for the guard and
`num ≤ size - 1 - fill_cnt` for the occupancy invariant). -/
def admissibleTraceB : RxRing → List Int → Bool
  | _, [] => true
  | r, n :: ns =>
    decide (n ≤ (r.size : Int)) && decide (n.toNat ≤ r.size - 1 - r.fill_cnt) &&
      admissibleTraceB (fill1 r n).ring ns

/-- C1 (amended): for every sequence of `htt_rx_ring_fill_n` calls in which
no buffer allocation fails, the refill debt is zero, and each call requests
at most `size - 1 - fill_cnt` buffers, the ring's `fill_cnt` never exceeds
`size - 1`, and each call publishes a hardware-visible write index equal to
(the index read at the start of the call + the number of buffers filled)
modulo the ring size. -/
theorem rx_ring_fill_trace (k : Nat) (r : RxRing) (nums : List Int)
    (hsize : r.size = 2 ^ k) (hmask : r.size_mask = r.size - 1)
    (hidx0 : 0 ≤ r.alloc_idx) (hidx1 : r.alloc_idx ≤ (r.size_mask : Int))
    (hfc : r.fill_cnt ≤ r.size - 1) (hdebt : r.refill_debt = 0)
    (hadm : admissibleTraceB r nums = true) :
    ∀ pr ∈ runFills r nums,
      pr.2.ring.fill_cnt ≤ pr.1.size - 1 ∧
      pr.2.published =
        some (((pr.1.alloc_idx.toNat + pr.2.filled) % pr.1.size : Nat) : Int) := by
  induction nums generalizing r with
  | nil =>
    intro pr hpr
    simp [runFills] at hpr
  | cons n ns ih =>
    rw [admissibleTraceB, Bool.and_eq_true, Bool.and_eq_true] at hadm
    obtain ⟨⟨hn1, hn2⟩, hrest⟩ := hadm
    rw [decide_eq_true_eq] at hn1 hn2
    have hres := fill_n_all_ok k r n hsize hmask hidx0 hidx1 hn1
    have hd0 : r.refill_debt.toNat = 0 := by rw [hdebt]; rfl
    intro pr hpr
    rw [runFills] at hpr
    rcases List.mem_cons.mp hpr with hpr | hpr
    · subst hpr
      rw [hres]
      dsimp only
      refine ⟨by omega, rfl⟩
    · refine ih (fill1 r n).ring ?_ ?_ ?_ ?_ ?_ ?_ hrest pr hpr
      · rw [hres]; exact hsize
      · rw [hres]; exact hmask
      · rw [hres]
        positivity
      · rw [hres]
        dsimp only
        rw [hmask]
        have hlt : (r.alloc_idx.toNat + (n.toNat + r.refill_debt.toNat)) % r.size
            < r.size := Nat.mod_lt _ (by rw [hsize]; exact Nat.two_pow_pos k)
        exact_mod_cast (by omega :
          (r.alloc_idx.toNat + (n.toNat + r.refill_debt.toNat)) % r.size ≤ r.size - 1)
      · rw [hres]
        dsimp only
        omega
      · rw [hres]; exact hdebt

/-- Witness for C1 (amended) on a ring of size 4 with a single admissible
call filling 3 buffers. -/
theorem rx_ring_fill_trace_witness :
    admissibleTraceB ⟨4, 3, 0, 0, 0⟩ [3] = true ∧
    ∀ pr ∈ runFills ⟨4, 3, 0, 0, 0⟩ [3],
      pr.2.ring.fill_cnt ≤ pr.1.size - 1 ∧
      pr.2.published =
        some (((pr.1.alloc_idx.toNat + pr.2.filled) % pr.1.size : Nat) : Int) :=
  ⟨by decide,
   rx_ring_fill_trace 2 ⟨4, 3, 0, 0, 0⟩ [3] (by decide) (by decide) (by decide)
     (by decide) (by decide) (by decide) (by decide)⟩

/-- C1 counterexample: on a well-formed empty ring of size 2 (`size_mask = 1`,
index 0, no debt), a single `htt_rx_ring_fill_n` call requesting 2 buffers —
which the entry guard accepts, since it only rejects `num > size` — with no
allocation failure leaves `fill_cnt = 2 > size - 1 = 1`.  The claimed
invariant `fill_cnt ≤ size - 1` does not hold for every sequence of
ring-fill calls without allocation failure. -/
theorem rx_ring_fill_overfills :
    (fill1 ⟨2, 1, 0, 0, 0⟩ 2).ring.fill_cnt = 2 ∧
    ¬ ((fill1 ⟨2, 1, 0, 0, 0⟩ 2).ring.fill_cnt ≤ (2 : Nat) - 1) := by
  decide

/-! ### Ring sizing and fill level (C7) -/

lemma QDF_IS_PWR2_pow (m : Nat) : QDF_IS_PWR2 (2 ^ m) = true := by
  unfold QDF_IS_PWR2
  rw [Nat.and_pow_two_sub_one_eq_mod]
  simp

lemma QDF_IS_PWR2_qdf_get_pwr2 (n : Nat) : QDF_IS_PWR2 (qdf_get_pwr2 n) = true := by
  unfold qdf_get_pwr2
  split
  · assumption
  · exact QDF_IS_PWR2_pow _

/-- C7 (amended): the computed fill level is always at most `size - 1`, and
it is a power of two except when the unclamped power-of-two value reaches
the ring size, in which case it equals `size - 1`.  At the concrete scenario
(ring size 128, 1 Gbps, 1000-byte frames, 20 ms latency) the raw formula
gives 2500, rounds up to 4096, and is clamped to 127 = size - 1; the ring
size itself for 1 Gbps is 2048.  The fill-level formula has no
`HTT_RX_RING_SIZE_MIN` clamp (that clamp is in `htt_rx_ring_size`). -/
theorem rx_ring_fill_level_spec (mbps ringSize lat : Nat) (hrs : 1 ≤ ringSize) :
    htt_rx_ring_fill_level mbps ringSize lat ≤ ringSize - 1 ∧
    (QDF_IS_PWR2 (htt_rx_ring_fill_level mbps ringSize lat) = true ∨
      htt_rx_ring_fill_level mbps ringSize lat = ringSize - 1) ∧
    htt_rx_ring_fill_level 1000 128 HTT_RX_HOST_LATENCY_WORST_LIKELY_MS_QCA_WIFI_3_0 = 127 ∧
    htt_rx_ring_size 1000 = 2048 := by
  refine ⟨?_, ?_, by decide, by decide⟩
  · simp only [htt_rx_ring_fill_level]
    split
    · omega
    · omega
  · simp only [htt_rx_ring_fill_level]
    split
    · right; rfl
    · left; exact QDF_IS_PWR2_qdf_get_pwr2 _

/-- Witness for C7 (amended) at the claim's concrete scenario. -/
theorem rx_ring_fill_level_spec_witness :
    1 ≤ 128 ∧
    (htt_rx_ring_fill_level 1000 128 20 ≤ 128 - 1 ∧
      (QDF_IS_PWR2 (htt_rx_ring_fill_level 1000 128 20) = true ∨
        htt_rx_ring_fill_level 1000 128 20 = 128 - 1) ∧
      htt_rx_ring_fill_level 1000 128 HTT_RX_HOST_LATENCY_WORST_LIKELY_MS_QCA_WIFI_3_0 = 127 ∧
      htt_rx_ring_size 1000 = 2048) :=
  ⟨by decide, rx_ring_fill_level_spec 1000 128 20 (by decide)⟩

/-- C7 counterexample: with ring size 128 and the fill-level formula
evaluated at 1 Gbps / 1000-byte frames / 20 ms, the computed fill level is
127: it is not a power of two, and it is below the
`HTT_RX_RING_SIZE_MIN`-equivalent 128 even though the raw throughput-latency
formula (2500) does not undershoot. -/
theorem rx_ring_fill_level_not_pow2 :
    htt_rx_ring_fill_level 1000 128 HTT_RX_HOST_LATENCY_WORST_LIKELY_MS_QCA_WIFI_3_0 = 127 ∧
    QDF_IS_PWR2 (htt_rx_ring_fill_level 1000 128
      HTT_RX_HOST_LATENCY_WORST_LIKELY_MS_QCA_WIFI_3_0) = false ∧
    htt_rx_ring_fill_level 1000 128 HTT_RX_HOST_LATENCY_WORST_LIKELY_MS_QCA_WIFI_3_0
      < HTT_RX_RING_SIZE_MIN := by
  decide

/-! ### Address hash table (htt_rx.c lines 2246-2452)

Each bucket owns a circular doubly-linked active list (`listhead`) plus a
free pool of pre-allocated entries (`freepool`).  The free pool and the
`fromlist` flag only decide where a removed entry's memory goes (back to
the pool vs `qdf_mem_free`); they do not affect which entries are active,
so buckets are modelled by their active lists in insertion order (the C
code appends at the tail and scans from the head).  Entry allocation is
assumed to succeed, as in the claims (on allocation failure the C insert
returns 1 with no state mutated). -/

/-- Active hash entry: stripped physical address and the buffer handle. -/
structure HashEntry where
  paddr : Nat
  netbuf : Nat
deriving DecidableEq

/-- The hash table: bucket index ↦ active list, oldest first. -/
def HashTable := Nat → List HashEntry

def emptyTable : HashTable := fun _ => []

/-- Modelled from the spec: `htt_paddr_trim_to_37` (htt_internal.h, not among
the sources) strips the tag/marker bits, keeping the lower 37 address bits —
cf. the inverse marking in `htt_rx_paddr_mark_high_bits` (htt_rx.c line 365:
`paddr &= 0x01FFFFFFFFF`). -/
def htt_paddr_trim_to_37 (p : Nat) : Nat := p % 2 ^ 37

/-- `htt_rx_hash_list_insert` (htt_rx.c lines 2320-2378): strip the marking
bits, select the bucket with `RX_HASH_FUNCTION`, populate an entry and
append it at the tail of the bucket's active list
(`htt_list_add_tail(&hash_table[i]->listhead, &hash_element->listnode)`). -/
def htt_rx_hash_list_insert (t : HashTable) (paddr netbuf : Nat) : HashTable :=
  let p := htt_paddr_trim_to_37 paddr
  let i := RX_HASH_FUNCTION p
  fun j => if j = i then t i ++ [⟨p, netbuf⟩] else t j

/-- The `HTT_LIST_ITER_FWD` scan of `htt_rx_hash_list_lookup`: walk the
bucket's active list from the head, and on the first entry whose stored
address equals `paddr`, detach it and return its buffer. -/
def bucketLookupRemove : List HashEntry → Nat → Option Nat × List HashEntry
  | [], _ => (none, [])
  | e :: es, p =>
    if e.paddr = p then (some e.netbuf, es)
    else
      let r := bucketLookupRemove es p
      (r.1, e :: r.2)

/-- `htt_rx_hash_list_lookup` (htt_rx.c lines 2387-2452), table-mutation
part: scan the bucket selected by `RX_HASH_FUNCTION paddr` (the argument is
already stripped of the marking bits), remove the first match and return
its buffer; `none` if no entry matches. -/
def htt_rx_hash_list_lookup (t : HashTable) (paddr : Nat) : Option Nat × HashTable :=
  let i := RX_HASH_FUNCTION paddr
  let r := bucketLookupRemove (t i) paddr
  (r.1, fun j => if j = i then r.2 else t j)

/-- `htt_rx_hash_list_lookup` including its error policy (htt_rx.c lines
2397-2400 and 2442-2449): if the table pointer has been detached
(`!pdev->rx_ring.hash_table`) the function returns NULL with no further
action; otherwise, if no entry matches, it triggers full-system recovery
when `cds_is_self_recovery_enabled()` and otherwise `HTT_ASSERT_ALWAYS(0)`
(abort).  The third component records that fatal action. -/
def htt_rx_hash_list_lookup_full (recoveryEnabled tablePresent : Bool)
    (t : HashTable) (paddr : Nat) : Option Nat × HashTable × Option FatalKind :=
  if tablePresent then
    let r := htt_rx_hash_list_lookup t paddr
    (r.1, r.2,
      if r.1 = none then some (if recoveryEnabled then .recover else .abort) else none)
  else (none, t, none)

/-- A sequence of insert calls. -/
def runInserts : HashTable → List (Nat × Nat) → HashTable
  | t, [] => t
  | t, (p, b) :: rest => runInserts (htt_rx_hash_list_insert t p b) rest

/-- A sequence of lookup calls, collecting the returned buffers. -/
def runLookups : HashTable → List Nat → List (Option Nat) × HashTable
  | t, [] => ([], t)
  | t, p :: ps =>
    let r := htt_rx_hash_list_lookup t p
    let rr := runLookups r.2 ps
    (r.1 :: rr.1, rr.2)

/-- Abstraction: the table whose bucket `i` holds exactly the entries of `M`
(in order) that hash to `i`.  Every table built by inserts has this shape. -/
def tableOf (M : List HashEntry) : HashTable :=
  fun i => M.filter (fun e => RX_HASH_FUNCTION e.paddr == i)

/-- The entry an insert of `(p, b)` stores: address stripped. -/
def trimEntry (pb : Nat × Nat) : HashEntry :=
  ⟨htt_paddr_trim_to_37 pb.1, pb.2⟩

/-- First matching entry's buffer, `find?`-style. -/
def findNb (M : List HashEntry) (p : Nat) : Option Nat :=
  (M.find? (fun e => e.paddr == p)).map (·.netbuf)

lemma emptyTable_eq : emptyTable = tableOf [] := by
  funext i
  rfl

lemma insert_tableOf (M : List HashEntry) (p b : Nat) :
    htt_rx_hash_list_insert (tableOf M) p b = tableOf (M ++ [trimEntry (p, b)]) := by
  funext j
  simp only [htt_rx_hash_list_insert, tableOf, trimEntry, List.filter_append]
  by_cases hj : j = RX_HASH_FUNCTION (htt_paddr_trim_to_37 p)
  · rw [if_pos hj]
    subst hj
    simp
  · rw [if_neg hj]
    have : (RX_HASH_FUNCTION (htt_paddr_trim_to_37 p) == j) = false := by
      simp
      omega
    simp [this]

lemma runInserts_tableOf_aux (L : List (Nat × Nat)) :
    ∀ M, runInserts (tableOf M) L = tableOf (M ++ L.map trimEntry) := by
  induction L with
  | nil => intro M; simp [runInserts]
  | cons pb rest ih =>
    intro M
    obtain ⟨p, b⟩ := pb
    rw [runInserts, insert_tableOf, ih]
    simp

lemma runInserts_tableOf (L : List (Nat × Nat)) :
    runInserts emptyTable L = tableOf (L.map trimEntry) := by
  rw [emptyTable_eq, runInserts_tableOf_aux]
  simp

lemma bucketLookupRemove_filter (p : Nat) :
    ∀ M : List HashEntry,
      bucketLookupRemove (M.filter (fun e => RX_HASH_FUNCTION e.paddr == RX_HASH_FUNCTION p)) p =
        (findNb M p,
         (M.eraseP (fun e => e.paddr == p)).filter
           (fun e => RX_HASH_FUNCTION e.paddr == RX_HASH_FUNCTION p)) := by
  intro M
  induction M with
  | nil => simp [bucketLookupRemove, findNb]
  | cons e es ih =>
    by_cases hpe : e.paddr = p
    · simp [List.filter_cons, List.eraseP_cons, findNb, List.find?_cons, hpe,
        bucketLookupRemove]
    · have hpe' : (e.paddr == p) = false := by simp [hpe]
      by_cases hhash : RX_HASH_FUNCTION e.paddr = RX_HASH_FUNCTION p
      · simp only [List.filter_cons, List.eraseP_cons, findNb, List.find?_cons]
        simp only [findNb] at ih
        simp [hpe, hpe', hhash, bucketLookupRemove, ih]
      · have hhash' : (RX_HASH_FUNCTION e.paddr == RX_HASH_FUNCTION p) = false := by
          simp [hhash]
        simp only [List.filter_cons, List.eraseP_cons, findNb, List.find?_cons]
        simp only [findNb] at ih
        simp [hpe, hpe', hhash', ih]

lemma filter_eraseP_other (p j : Nat) (hj : j ≠ RX_HASH_FUNCTION p) :
    ∀ M : List HashEntry,
      (M.eraseP (fun e => e.paddr == p)).filter
          (fun e => RX_HASH_FUNCTION e.paddr == j) =
        M.filter (fun e => RX_HASH_FUNCTION e.paddr == j) := by
  intro M
  induction M with
  | nil => rfl
  | cons e es ih =>
    by_cases hpe : e.paddr = p
    · have hpe' : (e.paddr == p) = true := by simp [hpe]
      have hne' : (RX_HASH_FUNCTION e.paddr == j) = false := by
        rw [hpe]
        simp [Ne.symm hj]
      simp [List.eraseP_cons, List.filter_cons, hpe', hne']
    · have hpe' : (e.paddr == p) = false := by simp [hpe]
      by_cases hhash : RX_HASH_FUNCTION e.paddr = j
      · have hh' : (RX_HASH_FUNCTION e.paddr == j) = true := by simp [hhash]
        simp [List.eraseP_cons, List.filter_cons, hpe', hh', ih]
      · have hh' : (RX_HASH_FUNCTION e.paddr == j) = false := by simp [hhash]
        simp [List.eraseP_cons, List.filter_cons, hpe', hh', ih]

lemma lookup_tableOf (M : List HashEntry) (p : Nat) :
    htt_rx_hash_list_lookup (tableOf M) p =
      (findNb M p, tableOf (M.eraseP (fun e => e.paddr == p))) := by
  have hb := bucketLookupRemove_filter p M
  unfold htt_rx_hash_list_lookup
  simp only [tableOf] at hb ⊢
  rw [hb]
  refine Prod.ext rfl ?_
  funext j
  dsimp only
  by_cases hj : j = RX_HASH_FUNCTION p
  · rw [if_pos hj, hj]
    rfl
  · rw [if_neg hj]
    exact (filter_eraseP_other p j hj M).symm

lemma findNb_eraseP_ne (p q : Nat) (hne : q ≠ p) :
    ∀ M : List HashEntry,
      findNb (M.eraseP (fun e => e.paddr == p)) q = findNb M q := by
  intro M
  induction M with
  | nil => rfl
  | cons e es ih =>
    by_cases hpe : e.paddr = p
    · have hpe' : (e.paddr == p) = true := by simp [hpe]
      have heq' : (e.paddr == q) = false := by
        rw [hpe]
        simp [Ne.symm hne]
      simp [findNb, List.eraseP_cons, List.find?_cons, hpe', heq']
    · have hpe' : (e.paddr == p) = false := by simp [hpe]
      by_cases heq : e.paddr = q
      · have heq' : (e.paddr == q) = true := by simp [heq]
        simp [findNb, List.eraseP_cons, List.find?_cons, hpe', heq']
      · have heq' : (e.paddr == q) = false := by simp [heq]
        simp only [findNb] at ih
        simp [findNb, List.eraseP_cons, List.find?_cons, hpe', heq', ih]

lemma findNb_eraseP_none (p q : Nat) (M : List HashEntry)
    (h : findNb M q = none) :
    findNb (M.eraseP (fun e => e.paddr == p)) q = none := by
  unfold findNb at h ⊢
  rw [Option.map_eq_none'] at h ⊢
  rw [List.find?_eq_none] at h ⊢
  intro x hx
  exact h x ((List.eraseP_sublist M).mem hx)

lemma keys_eraseP (p : Nat) :
    ∀ M : List HashEntry,
      (M.eraseP (fun e => e.paddr == p)).map (·.paddr) =
        (M.map (·.paddr)).erase p := by
  intro M
  induction M with
  | nil => rfl
  | cons e es ih =>
    by_cases hpe : e.paddr = p
    · have hpe' : (e.paddr == p) = true := by simp [hpe]
      simp [List.eraseP_cons, List.map_cons, List.erase_cons, hpe', hpe]
    · have hpe' : (e.paddr == p) = false := by simp [hpe]
      simp [List.eraseP_cons, List.map_cons, List.erase_cons, hpe', hpe, ih]

lemma keys_nodup_eraseP (p : Nat) (M : List HashEntry)
    (h : (M.map (·.paddr)).Nodup) :
    ((M.eraseP (fun e => e.paddr == p)).map (·.paddr)).Nodup :=
  h.sublist ((List.eraseP_sublist M).map (·.paddr))

lemma runLookups_tableOf :
    ∀ (P : List Nat) (M : List HashEntry),
      (M.map (·.paddr)).Nodup → List.Perm P (M.map (·.paddr)) →
      (runLookups (tableOf M) P).1 = P.map (fun p => findNb M p) ∧
      ∀ i, (runLookups (tableOf M) P).2 i = [] := by
  intro P
  induction P with
  | nil =>
    intro M hnd hperm
    have hkeys : M.map (·.paddr) = [] := (List.perm_nil.mp hperm.symm)
    have hM : M = [] := List.map_eq_nil_iff.mp hkeys
    subst hM
    exact ⟨rfl, fun i => rfl⟩
  | cons p ps ih =>
    intro M hnd hperm
    have hPnd : (p :: ps).Nodup := hperm.nodup_iff.mpr hnd
    have hps : p ∉ ps := (List.nodup_cons.mp hPnd).1
    have hperm' : List.Perm ps ((M.map (·.paddr)).erase p) :=
      (List.cons_perm_iff_perm_erase.mp hperm).2
    rw [runLookups, lookup_tableOf]
    have hihyp := ih (M.eraseP (fun e => e.paddr == p))
      (keys_nodup_eraseP p M hnd)
      (by rw [keys_eraseP]; exact hperm')
    refine ⟨?_, hihyp.2⟩
    simp only [List.map_cons]
    rw [hihyp.1]
    congr 1
    refine List.map_congr_left ?_
    intro q hq
    exact findNb_eraseP_ne p q (fun hqp => hps (hqp ▸ hq)) M

/-- C2: for any sequence of `htt_rx_hash_list_insert` calls followed by
`htt_rx_hash_list_lookup` calls in which the inserted (stripped) physical
addresses are distinct and the lookups visit exactly those addresses (in any
order), each lookup returns exactly the buffer inserted under that address
(`findNb` of the inserted entries, which is always `some`), and afterwards
the table has no active entries in any bucket. -/
theorem hash_insert_lookup_roundtrip (L : List (Nat × Nat)) (P : List Nat)
    (hnd : ((L.map trimEntry).map (·.paddr)).Nodup)
    (hperm : List.Perm P ((L.map trimEntry).map (·.paddr))) :
    (runLookups (runInserts emptyTable L) P).1 =
      P.map (fun p => findNb (L.map trimEntry) p) ∧
    (∀ p ∈ P, findNb (L.map trimEntry) p ≠ none) ∧
    ∀ i, (runLookups (runInserts emptyTable L) P).2 i = [] := by
  rw [runInserts_tableOf]
  have h := runLookups_tableOf P (L.map trimEntry) hnd hperm
  refine ⟨h.1, ?_, h.2⟩
  intro p hp
  have hmem : p ∈ (L.map trimEntry).map (·.paddr) := hperm.subset hp
  obtain ⟨e, he, hep⟩ := List.mem_map.mp hmem
  have : ((L.map trimEntry).find? (fun e => e.paddr == p)).isSome := by
    rw [List.find?_isSome]
    exact ⟨e, he, by simp [hep]⟩
  unfold findNb
  intro hcontra
  rw [Option.map_eq_none'] at hcontra
  rw [hcontra] at this
  simp at this

/-- Witness for C2: two inserts with distinct addresses, looked up in
reverse order. -/
theorem hash_insert_lookup_roundtrip_witness :
    (([(1, 10), (2, 20)].map trimEntry).map (fun e => e.paddr)).Nodup ∧
    (List.Perm [2, 1] (([(1, 10), (2, 20)].map trimEntry).map (fun e => e.paddr)) ∧
      ((runLookups (runInserts emptyTable [(1, 10), (2, 20)]) [2, 1]).1 =
        [2, 1].map (fun p => findNb ([(1, 10), (2, 20)].map trimEntry) p) ∧
      (∀ p ∈ [2, 1], findNb ([(1, 10), (2, 20)].map trimEntry) p ≠ none) ∧
      ∀ i, (runLookups (runInserts emptyTable [(1, 10), (2, 20)]) [2, 1]).2 i = [])) :=
  ⟨by decide, by decide,
   hash_insert_lookup_roundtrip [(1, 10), (2, 20)] [2, 1] (by decide) (by decide)⟩

/-- C9: when several entries with the same stripped physical address are
simultaneously active, `htt_rx_hash_list_lookup` returns the buffer of the
earliest-inserted matching entry (insert appends at the bucket tail, lookup
scans forward from the head and takes the first match), and removes exactly
that entry. -/
theorem hash_lookup_fifo_on_duplicates (L : List (Nat × Nat)) (p : Nat) :
    (htt_rx_hash_list_lookup (runInserts emptyTable L) p).1 =
      (L.find? (fun q => htt_paddr_trim_to_37 q.1 == p)).map (·.2) ∧
    (htt_rx_hash_list_lookup (runInserts emptyTable L) p).2 =
      tableOf ((L.map trimEntry).eraseP (fun e => e.paddr == p)) := by
  rw [runInserts_tableOf, lookup_tableOf]
  refine ⟨?_, rfl⟩
  unfold findNb
  rw [List.find?_map]
  rw [Option.map_map]
  rfl

/-! ### Error policy for protocol-desync conditions (C6) -/

/-- C6 (amended): of the two protocol-desync conditions, only the hash-table
lookup miss is fatal — with the table attached and no matching entry,
`htt_rx_hash_list_lookup` triggers full-system recovery when the recovery
subsystem is available and otherwise aborts.  An out-of-range ring index (or
an oversized request) observed at the start of `htt_rx_ring_fill_n` is NOT
fatal: the call merely logs, fills nothing, publishes nothing, leaves the
ring unchanged and returns 0. -/
theorem desync_error_policy :
    (∀ (recoveryEnabled : Bool) (t : HashTable) (paddr : Nat),
      (htt_rx_hash_list_lookup t paddr).1 = none →
      (htt_rx_hash_list_lookup_full recoveryEnabled true t paddr).2.2 =
        some (if recoveryEnabled then .recover else .abort)) ∧
    (∀ (allocOk : Nat → Bool) (r : RxRing) (num : Int),
      (r.alloc_idx < 0 ∨ r.alloc_idx > (r.size_mask : Int) ∨ num > (r.size : Int)) →
      htt_rx_ring_fill_n allocOk r num =
        { ring := r, filled := 0, published := none, gotos := 0, fatal := none }) := by
  constructor
  · intro recoveryEnabled t paddr h
    unfold htt_rx_hash_list_lookup_full
    rw [if_pos rfl]
    simp [h]
  · intro allocOk r num h
    unfold htt_rx_ring_fill_n
    rw [if_pos h]

/-- Witness for C6 (amended): a lookup miss on the empty table with recovery
enabled records a recovery trigger; a fill call that reads write index 7 on
a ring with `size_mask = 3` records no fatal action and fills nothing. -/
theorem desync_error_policy_witness :
    ((htt_rx_hash_list_lookup emptyTable 5).1 = none ∧
      (htt_rx_hash_list_lookup_full true true emptyTable 5).2.2 =
        some FatalKind.recover) ∧
    (((⟨4, 3, 7, 0, 0⟩ : RxRing).alloc_idx > ((⟨4, 3, 7, 0, 0⟩ : RxRing).size_mask : Int)) ∧
      htt_rx_ring_fill_n (fun _ => true) ⟨4, 3, 7, 0, 0⟩ 1 =
        { ring := ⟨4, 3, 7, 0, 0⟩, filled := 0, published := none, gotos := 0,
          fatal := none }) :=
  ⟨⟨by decide, desync_error_policy.1 true emptyTable 5 (by decide)⟩,
   ⟨by decide,
    desync_error_policy.2 (fun _ => true) ⟨4, 3, 7, 0, 0⟩ 1 (by decide)⟩⟩

/-- C6 counterexample: the claim says an out-of-range ring index observed at
the start of a fill call triggers full-system recovery or an abort; but
`htt_rx_ring_fill_n` on a ring whose shared write index reads 7 with
`size_mask = 3` records no recovery/abort action at all — it logs and
returns 0. -/
theorem fill_guard_not_fatal :
    ((⟨4, 3, 7, 0, 0⟩ : RxRing).alloc_idx > ((⟨4, 3, 7, 0, 0⟩ : RxRing).size_mask : Int)) ∧
    (htt_rx_ring_fill_n (fun _ => true) ⟨4, 3, 7, 0, 0⟩ 1).fatal = none ∧
    (htt_rx_ring_fill_n (fun _ => true) ⟨4, 3, 7, 0, 0⟩ 1).filled = 0 := by
  decide

/-! ### In-order A-MSDU pop: `htt_rx_amsdu_rx_in_order_pop_ll`
(htt_rx.c lines 1632-1840)

The indication message carries, per MSDU, a physical address, a declared
length and the firmware descriptor byte; the function pops each buffer by
address from the hash table, sets its length from the message, links the
buffers into a chain, splices out MIC-erroring buffers (handing them to
`ol_rx_mic_error_handler` and freeing them), and null-terminates the chain
at the last MSDU.  The per-buffer field reads
(`HTT_RX_IN_ORD_PADDR_IND_MSDU_LEN_GET`, `..._FW_DESC_GET`) are modelled as
record fields; `FW_RX_DESC_ANY_ERR_M` / `FW_RX_DESC_DISCARD_M` (firmware
headers, not among the sources) become the Booleans `anyErr` / `discard`.
`HTT_RX_STD_DESC_RESERVATION` equals `RX_STD_DESC_SIZE` for the low-latency
configuration (htt_internal.h, not among the sources), so the same `DESC`
parameter is used for the `pull_head` and the trim. -/

/-- One per-MSDU record of an in-order indication message. -/
structure InOrdRecord where
  paddr : Nat
  len : Int
  anyErr : Bool
  discard : Bool

/-- An in-order indication message: offload/frag flags, the MSDU count, and
the per-MSDU records (`frag` is read for statistics only). -/
structure InOrdMsg where
  offloadInd : Bool
  fragInd : Bool
  msduCount : Nat
  recs : Nat → InOrdRecord

/-- The network-buffer heap: per buffer id, the packet length and the `next`
pointer. -/
structure NbufStore where
  pktlen : Nat → Int
  nxt : Nat → Option Nat

def setPktlen (s : NbufStore) (b : Nat) (v : Int) : NbufStore :=
  { s with pktlen := fun x => if x = b then v else s.pktlen x }

def setNext (s : NbufStore) (b : Nat) (v : Option Nat) : NbufStore :=
  { s with nxt := fun x => if x = b then v else s.nxt x }

/-- The length bookkeeping applied to each popped buffer (htt_rx.c lines
1707, 1722, 1734-1738): `qdf_nbuf_set_pktlen(msdu, HTT_RX_BUF_SIZE)`, then
`qdf_nbuf_pull_head(msdu, HTT_RX_STD_DESC_RESERVATION)`, then
`qdf_nbuf_trim_tail(msdu, HTT_RX_BUF_SIZE - (RX_STD_DESC_SIZE + len))`. -/
def processLen (BUF DESC : Int) (s : NbufStore) (b : Nat) (len : Int) : NbufStore :=
  let s1 := setPktlen s b BUF
  let s2 := setPktlen s1 b (s1.pktlen b - DESC)
  setPktlen s2 b (s2.pktlen b - (BUF - (DESC + len)))

/-- The error test at htt_rx.c lines 1763-1764:
`RX_DESC_MIC_ERR_IS_SET && !RX_DESC_DISCARD_IS_SET` (the MIC-error macro
tests `FW_RX_DESC_ANY_ERR_M`). -/
def micErrNoDiscard (r : InOrdRecord) : Bool := r.anyErr && !r.discard

/-- Modelled from the spec: `htt_rx_in_order_netbuf_pop` (htt_internal.h,
not among the sources) — decrement the ring fill count, strip the marking
bits off the address, and fetch the buffer via the hash-table lookup
(spec §4.3: "Pop the first buffer ... via hash lookup by address in
address-ordered mode"). -/
def htt_rx_in_order_netbuf_pop (tbl : HashTable) (fillCnt : Nat) (paddr : Nat) :
    Option Nat × HashTable × Nat :=
  let r := htt_rx_hash_list_lookup tbl (htt_paddr_trim_to_37 paddr)
  (r.1, r.2, fillCnt - 1)

/-- State threaded through `htt_rx_amsdu_rx_in_order_pop_ll`: the hash
table, the ring fill count, the buffer heap, the caller-visible
`*head_msdu` / `*tail_msdu`, the buffers released via
`htt_rx_desc_frame_free`, the buffers passed to `ol_rx_mic_error_handler`,
and the return value. -/
structure PopSt where
  tbl : HashTable
  fillCnt : Nat
  store : NbufStore
  head : Option Nat
  tail : Option Nat
  freed : List Nat
  handled : List Nat
  ret : Nat

/-- The `while (msdu_count > 0)` loop of `htt_rx_amsdu_rx_in_order_pop_ll`
(htt_rx.c lines 1695-1836).  `n` is the current `msdu_count`, `i` the index
of the record describing the current `msdu`, `prev` the trailing pointer
used for splicing. -/
def popLoop (BUF DESC : Int) (recs : Nat → InOrdRecord) :
    Nat → Nat → Nat → Option Nat → PopSt → PopSt
  | 0, _, _, _, st => st
  | n + 1, i, msdu, prev, st =>
    let st1 : PopSt := { st with store := processLen BUF DESC st.store msdu (recs i).len }
    if micErrNoDiscard (recs i) then
      let st2 : PopSt :=
        { st1 with handled := st1.handled ++ [msdu], freed := st1.freed ++ [msdu] }
      if n = 0 then
        match prev with
        | none => { st2 with head := none, tail := none, ret := 0 }
        | some pb => { st2 with tail := some pb, store := setNext st2.store pb none }
      else
        let pr := htt_rx_in_order_netbuf_pop st2.tbl st2.fillCnt ((recs (i + 1)).paddr)
        match pr.1 with
        | none => { st2 with tbl := pr.2.1, fillCnt := pr.2.2, tail := none, ret := 0 }
        | some nxtb =>
          match prev with
          | some pb =>
            popLoop BUF DESC recs n (i + 1) nxtb prev
              { st2 with tbl := pr.2.1, fillCnt := pr.2.2,
                         store := setNext st2.store pb (some nxtb) }
          | none =>
            popLoop BUF DESC recs n (i + 1) nxtb none
              { st2 with tbl := pr.2.1, fillCnt := pr.2.2, head := some nxtb }
    else
      if n = 0 then
        { st1 with tail := some msdu, store := setNext st1.store msdu none }
      else
        let pr := htt_rx_in_order_netbuf_pop st1.tbl st1.fillCnt ((recs (i + 1)).paddr)
        match pr.1 with
        | none => { st1 with tbl := pr.2.1, fillCnt := pr.2.2, tail := none, ret := 0 }
        | some nxtb =>
          popLoop BUF DESC recs n (i + 1) nxtb (some msdu)
            { st1 with tbl := pr.2.1, fillCnt := pr.2.2,
                       store := setNext st1.store msdu (some nxtb) }

/-- `htt_rx_amsdu_rx_in_order_pop_ll` (htt_rx.c lines 1632-1840): on an
offload indication the message is delegated to the offload handler and no
chain is produced (`*head = *tail = NULL`, return 0); otherwise the first
buffer is popped by address (`*head_msdu` is assigned the result even when
the pop fails, in which case `*tail = NULL` and 0 is returned), and the
loop runs. -/
def htt_rx_amsdu_rx_in_order_pop_ll (BUF DESC : Int) (msg : InOrdMsg)
    (tbl : HashTable) (fillCnt : Nat) (store : NbufStore) : PopSt :=
  let st0 : PopSt :=
    { tbl := tbl, fillCnt := fillCnt, store := store, head := none, tail := none,
      freed := [], handled := [], ret := 1 }
  if msg.offloadInd then
    { st0 with head := none, tail := none, ret := 0 }
  else
    let pr := htt_rx_in_order_netbuf_pop tbl fillCnt ((msg.recs 0).paddr)
    match pr.1 with
    | none =>
      { st0 with tbl := pr.2.1, fillCnt := pr.2.2, head := none, tail := none,
                 ret := 0 }
    | some b0 =>
      popLoop BUF DESC msg.recs msg.msduCount 0 b0 none
        { st0 with tbl := pr.2.1, fillCnt := pr.2.2, head := some b0 }

/-- A well-terminated chain: consecutive elements linked by `nxt`, last
element's `nxt` null. -/
def chainOk (nxt : Nat → Option Nat) : List Nat → Prop
  | [] => True
  | [b] => nxt b = none
  | b :: b2 :: rest => nxt b = some b2 ∧ chainOk nxt (b2 :: rest)

lemma processLen_pktlen_self (BUF DESC : Int) (s : NbufStore) (b : Nat) (len : Int) :
    (processLen BUF DESC s b len).pktlen b = len := by
  simp only [processLen, setPktlen]
  simp
  try ring

lemma processLen_pktlen_other (BUF DESC : Int) (s : NbufStore) (b : Nat)
    (len : Int) (x : Nat) (hx : x ≠ b) :
    (processLen BUF DESC s b len).pktlen x = s.pktlen x := by
  simp only [processLen, setPktlen]
  simp [hx]

lemma processLen_nxt (BUF DESC : Int) (s : NbufStore) (b : Nat) (len : Int) :
    (processLen BUF DESC s b len).nxt = s.nxt := rfl

lemma setNext_nxt_self (s : NbufStore) (b : Nat) (v : Option Nat) :
    (setNext s b v).nxt b = v := by
  simp [setNext]

lemma setNext_nxt_other (s : NbufStore) (b : Nat) (v : Option Nat) (x : Nat)
    (hx : x ≠ b) : (setNext s b v).nxt x = s.nxt x := by
  simp [setNext, hx]

lemma setNext_pktlen (s : NbufStore) (b : Nat) (v : Option Nat) :
    (setNext s b v).pktlen = s.pktlen := rfl

lemma netbuf_pop_found (M : List HashEntry) (fc : Nat) (q b : Nat)
    (h : findNb M (htt_paddr_trim_to_37 q) = some b) :
    htt_rx_in_order_netbuf_pop (tableOf M) fc q =
      (some b,
       tableOf (M.eraseP (fun e => e.paddr == htt_paddr_trim_to_37 q)),
       fc - 1) := by
  unfold htt_rx_in_order_netbuf_pop
  rw [lookup_tableOf, h]

lemma netbuf_pop_miss (M : List HashEntry) (fc : Nat) (q : Nat)
    (h : findNb M (htt_paddr_trim_to_37 q) = none) :
    htt_rx_in_order_netbuf_pop (tableOf M) fc q =
      (none,
       tableOf (M.eraseP (fun e => e.paddr == htt_paddr_trim_to_37 q)),
       fc - 1) := by
  unfold htt_rx_in_order_netbuf_pop
  rw [lookup_tableOf, h]

section PopLoopSteps

variable (BUF DESC : Int) (recs : Nat → InOrdRecord)

lemma popLoop_one_noerr (i msdu : Nat) (prev : Option Nat) (st : PopSt)
    (herr : micErrNoDiscard (recs i) = false) :
    popLoop BUF DESC recs 1 i msdu prev st =
      { st with store := setNext (processLen BUF DESC st.store msdu (recs i).len) msdu none,
                tail := some msdu } := by
  simp [popLoop, herr]

lemma popLoop_more_noerr (n i msdu : Nat) (prev : Option Nat) (st : PopSt)
    (nxtb : Nat) (tbl' : HashTable) (fc' : Nat)
    (herr : micErrNoDiscard (recs i) = false)
    (hpop : htt_rx_in_order_netbuf_pop st.tbl st.fillCnt ((recs (i + 1)).paddr) =
      (some nxtb, tbl', fc')) :
    popLoop BUF DESC recs (n + 1 + 1) i msdu prev st =
      popLoop BUF DESC recs (n + 1) (i + 1) nxtb (some msdu)
        { st with tbl := tbl', fillCnt := fc',
                  store := setNext (processLen BUF DESC st.store msdu (recs i).len)
                    msdu (some nxtb) } := by
  simp [popLoop, herr, hpop]

lemma popLoop_fail_noerr (n i msdu : Nat) (prev : Option Nat) (st : PopSt)
    (tbl' : HashTable) (fc' : Nat)
    (herr : micErrNoDiscard (recs i) = false)
    (hpop : htt_rx_in_order_netbuf_pop st.tbl st.fillCnt ((recs (i + 1)).paddr) =
      (none, tbl', fc')) :
    popLoop BUF DESC recs (n + 1 + 1) i msdu prev st =
      { st with store := processLen BUF DESC st.store msdu (recs i).len,
                tbl := tbl', fillCnt := fc', tail := none, ret := 0 } := by
  simp [popLoop, herr, hpop]

lemma popLoop_one_err_none (i msdu : Nat) (st : PopSt)
    (herr : micErrNoDiscard (recs i) = true) :
    popLoop BUF DESC recs 1 i msdu none st =
      { st with store := processLen BUF DESC st.store msdu (recs i).len,
                handled := st.handled ++ [msdu], freed := st.freed ++ [msdu],
                head := none, tail := none, ret := 0 } := by
  simp [popLoop, herr]

lemma popLoop_one_err_some (i msdu pb : Nat) (st : PopSt)
    (herr : micErrNoDiscard (recs i) = true) :
    popLoop BUF DESC recs 1 i msdu (some pb) st =
      { st with store := setNext (processLen BUF DESC st.store msdu (recs i).len) pb none,
                handled := st.handled ++ [msdu], freed := st.freed ++ [msdu],
                tail := some pb } := by
  simp [popLoop, herr]

lemma popLoop_more_err_some (n i msdu pb : Nat) (st : PopSt)
    (nxtb : Nat) (tbl' : HashTable) (fc' : Nat)
    (herr : micErrNoDiscard (recs i) = true)
    (hpop : htt_rx_in_order_netbuf_pop st.tbl st.fillCnt ((recs (i + 1)).paddr) =
      (some nxtb, tbl', fc')) :
    popLoop BUF DESC recs (n + 1 + 1) i msdu (some pb) st =
      popLoop BUF DESC recs (n + 1) (i + 1) nxtb (some pb)
        { st with tbl := tbl', fillCnt := fc',
                  store := setNext (processLen BUF DESC st.store msdu (recs i).len)
                    pb (some nxtb),
                  handled := st.handled ++ [msdu], freed := st.freed ++ [msdu] } := by
  simp [popLoop, herr, hpop]

lemma popLoop_more_err_none (n i msdu : Nat) (st : PopSt)
    (nxtb : Nat) (tbl' : HashTable) (fc' : Nat)
    (herr : micErrNoDiscard (recs i) = true)
    (hpop : htt_rx_in_order_netbuf_pop st.tbl st.fillCnt ((recs (i + 1)).paddr) =
      (some nxtb, tbl', fc')) :
    popLoop BUF DESC recs (n + 1 + 1) i msdu none st =
      popLoop BUF DESC recs (n + 1) (i + 1) nxtb none
        { st with tbl := tbl', fillCnt := fc',
                  store := processLen BUF DESC st.store msdu (recs i).len,
                  head := some nxtb,
                  handled := st.handled ++ [msdu], freed := st.freed ++ [msdu] } := by
  simp [popLoop, herr, hpop]

lemma popLoop_fail_err (n i msdu : Nat) (prev : Option Nat) (st : PopSt)
    (tbl' : HashTable) (fc' : Nat)
    (herr : micErrNoDiscard (recs i) = true)
    (hpop : htt_rx_in_order_netbuf_pop st.tbl st.fillCnt ((recs (i + 1)).paddr) =
      (none, tbl', fc')) :
    popLoop BUF DESC recs (n + 1 + 1) i msdu prev st =
      { st with store := processLen BUF DESC st.store msdu (recs i).len,
                handled := st.handled ++ [msdu], freed := st.freed ++ [msdu],
                tbl := tbl', fillCnt := fc', tail := none, ret := 0 } := by
  simp [popLoop, herr, hpop]

end PopLoopSteps

/-- Conclusions of a `popLoop` run over an error-free window `[i, i+n)` in
which every pop succeeds; `bs j` is the buffer delivered for record `j`. -/
structure LoopOkOut (recs : Nat → InOrdRecord) (bs : Nat → Nat) (i n : Nat)
    (st st' : PopSt) : Prop where
  ret_eq : st'.ret = st.ret
  head_eq : st'.head = st.head
  handled_eq : st'.handled = st.handled
  freed_eq : st'.freed = st.freed
  tail_eq : st'.tail = some (bs (i + n - 1))
  links : ∀ j, i ≤ j → j + 1 < i + n → st'.store.nxt (bs j) = some (bs (j + 1))
  last_none : st'.store.nxt (bs (i + n - 1)) = none
  nxt_frame : ∀ x, (∀ j, i ≤ j → j < i + n → x ≠ bs j) →
    st'.store.nxt x = st.store.nxt x
  lens : ∀ j, i ≤ j → j < i + n → st'.store.pktlen (bs j) = (recs j).len
  len_frame : ∀ x, (∀ j, i ≤ j → j < i + n → x ≠ bs j) →
    st'.store.pktlen x = st.store.pktlen x

lemma popLoop_ok (BUF DESC : Int) (recs : Nat → InOrdRecord) (bs : Nat → Nat) :
    ∀ n, 1 ≤ n → ∀ (i msdu : Nat) (prev : Option Nat) (st : PopSt) (M : List HashEntry),
      st.tbl = tableOf M →
      (M.map (·.paddr)).Nodup →
      (∀ j, i < j → j < i + n →
        findNb M (htt_paddr_trim_to_37 ((recs j).paddr)) = some (bs j)) →
      (∀ j j', i < j → j < j' → j' < i + n →
        htt_paddr_trim_to_37 ((recs j).paddr) ≠ htt_paddr_trim_to_37 ((recs j').paddr)) →
      bs i = msdu →
      (∀ j j', i ≤ j → j < j' → j' < i + n → bs j ≠ bs j') →
      (∀ j, i ≤ j → j < i + n → micErrNoDiscard (recs j) = false) →
      LoopOkOut recs bs i n st (popLoop BUF DESC recs n i msdu prev st) := by
  intro n
  induction n with
  | zero => intro h; exact absurd h (by omega)
  | succ n ih =>
    intro _ i msdu prev st M hM hkeys hpop haddr hbi hbd herr
    rcases Nat.eq_zero_or_pos n with hn0 | hnpos
    · subst hn0
      rw [popLoop_one_noerr BUF DESC recs i msdu prev st (herr i (by omega) (by omega))]
      have hidx : i + 1 - 1 = i := by omega
      refine ⟨rfl, rfl, rfl, rfl, ?_, ?_, ?_, ?_, ?_, ?_⟩
      · rw [hidx, hbi]
      · intro j hj hlt
        omega
      · rw [hidx, hbi]
        exact setNext_nxt_self _ _ _
      · intro x hx
        have hxm : x ≠ msdu := hbi ▸ hx i (by omega) (by omega)
        show (setNext (processLen BUF DESC st.store msdu (recs i).len) msdu none).nxt x
          = st.store.nxt x
        rw [setNext_nxt_other _ _ _ _ hxm, processLen_nxt]
      · intro j hj hlt
        have hji : j = i := by omega
        subst hji
        show (setNext (processLen BUF DESC st.store msdu (recs j).len) msdu none).pktlen
          (bs j) = (recs j).len
        rw [setNext_pktlen, hbi]
        exact processLen_pktlen_self _ _ _ _ _
      · intro x hx
        have hxm : x ≠ msdu := hbi ▸ hx i (by omega) (by omega)
        show (setNext (processLen BUF DESC st.store msdu (recs i).len) msdu none).pktlen x
          = st.store.pktlen x
        rw [setNext_pktlen]
        exact processLen_pktlen_other _ _ _ _ _ _ hxm
    · obtain ⟨m, rfl⟩ : ∃ m, n = m + 1 := ⟨n - 1, by omega⟩
      have herr_i : micErrNoDiscard (recs i) = false := herr i (by omega) (by omega)
      have hpop1 : findNb M (htt_paddr_trim_to_37 ((recs (i + 1)).paddr)) =
          some (bs (i + 1)) := hpop (i + 1) (by omega) (by omega)
      have hMpop : htt_rx_in_order_netbuf_pop st.tbl st.fillCnt ((recs (i + 1)).paddr) =
          (some (bs (i + 1)),
           tableOf (M.eraseP
             (fun e => e.paddr == htt_paddr_trim_to_37 ((recs (i + 1)).paddr))),
           st.fillCnt - 1) := by
        rw [hM]
        exact netbuf_pop_found _ _ _ _ hpop1
      rw [popLoop_more_noerr BUF DESC recs m i msdu prev st _ _ _ herr_i hMpop]
      have hout := ih (by omega) (i + 1) (bs (i + 1)) (some msdu)
        { st with
          tbl := tableOf (M.eraseP
            (fun e => e.paddr == htt_paddr_trim_to_37 ((recs (i + 1)).paddr))),
          fillCnt := st.fillCnt - 1,
          store := setNext (processLen BUF DESC st.store msdu (recs i).len)
            msdu (some (bs (i + 1))) }
        (M.eraseP (fun e => e.paddr == htt_paddr_trim_to_37 ((recs (i + 1)).paddr)))
        rfl
        (keys_nodup_eraseP _ _ hkeys)
        (fun j hj hj2 => by
          rw [findNb_eraseP_ne _ _
            (Ne.symm (haddr (i + 1) j (by omega) (by omega) (by omega))) M]
          exact hpop j (by omega) (by omega))
        (fun j j' h1 h2 h3 => haddr j j' (by omega) h2 (by omega))
        rfl
        (fun j j' h1 h2 h3 => hbd j j' (by omega) h2 (by omega))
        (fun j h1 h2 => herr j (by omega) (by omega))
      have hbsi : ∀ j', i + 1 ≤ j' → j' < i + 1 + (m + 1) → bs i ≠ bs j' :=
        fun j' h1 h2 => hbd i j' (by omega) (by omega) (by omega)
      refine ⟨hout.ret_eq, hout.head_eq, hout.handled_eq, hout.freed_eq, ?_, ?_, ?_,
        ?_, ?_, ?_⟩
      · have hidx : i + (m + 1 + 1) - 1 = i + 1 + (m + 1) - 1 := by omega
        rw [hidx]
        exact hout.tail_eq
      · intro j hj hjlt
        rcases Nat.eq_or_lt_of_le hj with hji | hji
        · have hji' : j = i := hji.symm
          subst hji'
          rw [hout.nxt_frame (bs j) hbsi]
          show (setNext (processLen BUF DESC st.store msdu (recs j).len)
            msdu (some (bs (j + 1)))).nxt (bs j) = some (bs (j + 1))
          rw [hbi]
          exact setNext_nxt_self _ _ _
        · exact hout.links j (by omega) (by omega)
      · have hidx : i + (m + 1 + 1) - 1 = i + 1 + (m + 1) - 1 := by omega
        rw [hidx]
        exact hout.last_none
      · intro x hx
        rw [hout.nxt_frame x (fun j h1 h2 => hx j (by omega) (by omega))]
        have hxm : x ≠ msdu := hbi ▸ hx i (by omega) (by omega)
        show (setNext (processLen BUF DESC st.store msdu (recs i).len)
          msdu (some (bs (i + 1)))).nxt x = st.store.nxt x
        rw [setNext_nxt_other _ _ _ _ hxm, processLen_nxt]
      · intro j hj hjlt
        rcases Nat.eq_or_lt_of_le hj with hji | hji
        · have hji' : j = i := hji.symm
          subst hji'
          rw [hout.len_frame (bs j) hbsi]
          show (setNext (processLen BUF DESC st.store msdu (recs j).len)
            msdu (some (bs (j + 1)))).pktlen (bs j) = (recs j).len
          rw [setNext_pktlen, hbi]
          exact processLen_pktlen_self _ _ _ _ _
        · exact hout.lens j (by omega) (by omega)
      · intro x hx
        rw [hout.len_frame x (fun j h1 h2 => hx j (by omega) (by omega))]
        have hxm : x ≠ msdu := hbi ▸ hx i (by omega) (by omega)
        show (setNext (processLen BUF DESC st.store msdu (recs i).len)
          msdu (some (bs (i + 1)))).pktlen x = st.store.pktlen x
        rw [setNext_pktlen]
        exact processLen_pktlen_other _ _ _ _ _ _ hxm

lemma chainOk_range' (nxt : Nat → Option Nat) (bs : Nat → Nat) :
    ∀ (n i : Nat),
      (∀ j, i ≤ j → j + 1 < i + n → nxt (bs j) = some (bs (j + 1))) →
      (1 ≤ n → nxt (bs (i + n - 1)) = none) →
      chainOk nxt ((List.range' i n).map bs) := by
  intro n
  induction n with
  | zero =>
    intro i _ _
    simp [chainOk]
  | succ n ih =>
    intro i hlinks hlast
    rcases Nat.eq_zero_or_pos n with hn0 | hnpos
    · subst hn0
      have h1 : i + 1 - 1 = i := by omega
      simp only [List.range'_one, List.map_cons, List.map_nil, chainOk]
      have := hlast (by omega)
      rw [h1] at this
      exact this
    · obtain ⟨m, rfl⟩ : ∃ m, n = m + 1 := ⟨n - 1, by omega⟩
      rw [List.range'_succ, List.map_cons]
      have hrest := ih (i + 1)
        (fun j hj hjlt => hlinks j (by omega) (by omega))
        (fun _ => by
          have := hlast (by omega)
          have hidx : i + (m + 1 + 1) - 1 = i + 1 + (m + 1) - 1 := by omega
          rw [hidx] at this
          exact this)
      rw [List.range'_succ, List.map_cons] at hrest ⊢
      exact ⟨hlinks i (by omega) (by omega), hrest⟩

/-- C3: given an in-order indication message declaring `N ≥ 1` MSDUs, none
of which has the error flag set, whose addresses all resolve in the hash
table (to pairwise-distinct buffers `bs j`), `htt_rx_amsdu_rx_in_order_pop_ll`
returns 1 with a chain of exactly `N` buffers linked in message order
(`bs 0, …, bs (N-1)`), each buffer's length equal to its declared per-MSDU
length, the head/tail pointers at the first/last buffer, and the last
buffer's `next` pointer null; no buffer is freed or handed to the error
handler. -/
theorem in_order_pop_clean_message (BUF DESC : Int) (msg : InOrdMsg)
    (M : List HashEntry) (fc : Nat) (store : NbufStore) (bs : Nat → Nat)
    (res : PopSt)
    (hres : res = htt_rx_amsdu_rx_in_order_pop_ll BUF DESC msg (tableOf M) fc store)
    (hoff : msg.offloadInd = false)
    (hN : 1 ≤ msg.msduCount)
    (hkeys : (M.map (·.paddr)).Nodup)
    (hpop : ∀ j, j < msg.msduCount →
      findNb M (htt_paddr_trim_to_37 ((msg.recs j).paddr)) = some (bs j))
    (haddr : ∀ j', j' < msg.msduCount → ∀ j, j < j' →
      htt_paddr_trim_to_37 ((msg.recs j).paddr) ≠
        htt_paddr_trim_to_37 ((msg.recs j').paddr))
    (hbd : ∀ j', j' < msg.msduCount → ∀ j, j < j' → bs j ≠ bs j')
    (herr : ∀ j, j < msg.msduCount → micErrNoDiscard (msg.recs j) = false) :
    res.ret = 1 ∧
    res.head = some (bs 0) ∧
    res.tail = some (bs (msg.msduCount - 1)) ∧
    chainOk res.store.nxt ((List.range msg.msduCount).map bs) ∧
    ((List.range msg.msduCount).map bs).length = msg.msduCount ∧
    (∀ j, j < msg.msduCount → res.store.pktlen (bs j) = (msg.recs j).len) ∧
    res.handled = [] ∧ res.freed = [] := by
  have hMpop : htt_rx_in_order_netbuf_pop (tableOf M) fc ((msg.recs 0).paddr) =
      (some (bs 0),
       tableOf (M.eraseP
         (fun e => e.paddr == htt_paddr_trim_to_37 ((msg.recs 0).paddr))),
       fc - 1) :=
    netbuf_pop_found _ _ _ _ (hpop 0 (by omega))
  rw [htt_rx_amsdu_rx_in_order_pop_ll, if_neg (by simp [hoff]), hMpop] at hres
  simp only [] at hres
  have hout := popLoop_ok BUF DESC msg.recs bs msg.msduCount hN 0 (bs 0) none
    { tbl := tableOf (M.eraseP
        (fun e => e.paddr == htt_paddr_trim_to_37 ((msg.recs 0).paddr))),
      fillCnt := fc - 1, store := store, head := some (bs 0), tail := none,
      freed := [], handled := [], ret := 1 }
    (M.eraseP (fun e => e.paddr == htt_paddr_trim_to_37 ((msg.recs 0).paddr)))
    rfl
    (keys_nodup_eraseP _ _ hkeys)
    (fun j hj hj2 => by
      rw [findNb_eraseP_ne _ _ (Ne.symm (haddr j (by omega) 0 (by omega))) M]
      exact hpop j (by omega))
    (fun j j' h1 h2 h3 => haddr j' (by omega) j h2)
    rfl
    (fun j j' _ h2 h3 => hbd j' (by omega) j h2)
    (fun j _ h2 => herr j (by omega))
  rw [← hres] at hout
  refine ⟨?_, ?_, ?_, ?_, by simp, ?_, ?_, ?_⟩
  · rw [hout.ret_eq]
  · rw [hout.head_eq]
  · have := hout.tail_eq
    rw [this]
    congr 2
    omega
  · rw [List.range_eq_range']
    exact chainOk_range' res.store.nxt bs msg.msduCount 0
      (fun j hj hjlt => hout.links j hj (by omega))
      (fun _ => by
        have := hout.last_none
        simpa using this)
  · intro j hj
    exact hout.lens j (by omega) (by omega)
  · rw [hout.handled_eq]
  · rw [hout.freed_eq]

/-- Witness for C3: a 2-MSDU message, buffers 11 and 22 posted at stripped
addresses 100 and 200, lengths 50 and 60. -/
theorem in_order_pop_clean_message_witness :
    (∀ j, j < 2 → micErrNoDiscard
        ((fun j => if j = 0 then (⟨100, 50, false, false⟩ : InOrdRecord)
                   else ⟨200, 60, false, false⟩) j) = false) ∧
    (let msg : InOrdMsg :=
      ⟨false, false, 2,
        fun j => if j = 0 then ⟨100, 50, false, false⟩ else ⟨200, 60, false, false⟩⟩
     let M : List HashEntry := [⟨100, 11⟩, ⟨200, 22⟩]
     let bs : Nat → Nat := fun j => if j = 0 then 11 else 22
     let res := htt_rx_amsdu_rx_in_order_pop_ll 2048 256 msg (tableOf M) 5
       ⟨fun _ => 0, fun _ => none⟩
     res.ret = 1 ∧
     res.head = some (bs 0) ∧
     res.tail = some (bs (msg.msduCount - 1)) ∧
     chainOk res.store.nxt ((List.range msg.msduCount).map bs) ∧
     ((List.range msg.msduCount).map bs).length = msg.msduCount ∧
     (∀ j, j < msg.msduCount → res.store.pktlen (bs j) = (msg.recs j).len) ∧
     res.handled = [] ∧ res.freed = []) :=
  ⟨by decide,
   in_order_pop_clean_message 2048 256
     ⟨false, false, 2,
       fun j => if j = 0 then ⟨100, 50, false, false⟩ else ⟨200, 60, false, false⟩⟩
     [⟨100, 11⟩, ⟨200, 22⟩] 5 ⟨fun _ => 0, fun _ => none⟩
     (fun j => if j = 0 then 11 else 22) _ rfl rfl (by decide) (by decide)
     (by decide) (by decide) (by decide) (by decide)⟩

/-- Conclusions of a `popLoop` run over a window `[i, i+n)` whose pops all
succeed and in which exactly record `e` carries the MIC-error flag
(discard clear).  The erroring buffer is handed to the error handler and
freed; the rest is spliced around it. -/
structure LoopErrOut (recs : Nat → InOrdRecord) (bs : Nat → Nat) (i n e : Nat)
    (prev : Option Nat) (st st' : PopSt) : Prop where
  handled_eq : st'.handled = st.handled ++ [bs e]
  freed_eq : st'.freed = st.freed ++ [bs e]
  sole_none : n = 1 → prev = none → st'.head = none ∧ st'.tail = none ∧ st'.ret = 0
  sole_some : ∀ pb, n = 1 → prev = some pb →
    st'.head = st.head ∧ st'.tail = some pb ∧ st'.ret = st.ret ∧
    st'.store.nxt pb = none
  ret_eq : 2 ≤ n → st'.ret = st.ret
  head_keep : 2 ≤ n → (i < e ∨ prev ≠ none) → st'.head = st.head
  head_repl : 2 ≤ n → e = i → prev = none → st'.head = some (bs (i + 1))
  prev_splice : ∀ pb, 2 ≤ n → e = i → prev = some pb →
    st'.store.nxt pb = some (bs (i + 1))
  tail_eq : 2 ≤ n →
    st'.tail = some (bs (if e = i + n - 1 then i + n - 2 else i + n - 1))
  last_none : 2 ≤ n →
    st'.store.nxt (bs (if e = i + n - 1 then i + n - 2 else i + n - 1)) = none
  links : 2 ≤ n → ∀ j, i ≤ j → j + 1 < i + n → j ≠ e → j + 1 ≠ e →
    st'.store.nxt (bs j) = some (bs (j + 1))
  splice : 2 ≤ n → i + 1 ≤ e → e + 1 < i + n →
    st'.store.nxt (bs (e - 1)) = some (bs (e + 1))
  lens : ∀ j, i ≤ j → j < i + n → j ≠ e → st'.store.pktlen (bs j) = (recs j).len
  nxt_frame : ∀ x, (∀ j, i ≤ j → j < i + n → x ≠ bs j) →
    (e = i → ∀ pb, prev = some pb → x ≠ pb) →
    st'.store.nxt x = st.store.nxt x
  len_frame : ∀ x, (∀ j, i ≤ j → j < i + n → x ≠ bs j) →
    st'.store.pktlen x = st.store.pktlen x

lemma popLoop_err (BUF DESC : Int) (recs : Nat → InOrdRecord) (bs : Nat → Nat) :
    ∀ n, 1 ≤ n → ∀ (e i msdu : Nat) (prev : Option Nat) (st : PopSt)
      (M : List HashEntry),
      st.tbl = tableOf M →
      (M.map (·.paddr)).Nodup →
      i ≤ e → e < i + n →
      (∀ j, i < j → j < i + n →
        findNb M (htt_paddr_trim_to_37 ((recs j).paddr)) = some (bs j)) →
      (∀ j j', i < j → j < j' → j' < i + n →
        htt_paddr_trim_to_37 ((recs j).paddr) ≠
          htt_paddr_trim_to_37 ((recs j').paddr)) →
      bs i = msdu →
      (∀ j j', i ≤ j → j < j' → j' < i + n → bs j ≠ bs j') →
      (∀ j, i ≤ j → j < i + n → j ≠ e → micErrNoDiscard (recs j) = false) →
      micErrNoDiscard (recs e) = true →
      (∀ pb, prev = some pb → ∀ j, i ≤ j → j < i + n → pb ≠ bs j) →
      LoopErrOut recs bs i n e prev st (popLoop BUF DESC recs n i msdu prev st) := by
  intro n
  induction n with
  | zero => intro h; exact absurd h (by omega)
  | succ n ih =>
    intro _ e i msdu prev st M hM hkeys he1 he2 hpop haddr hbi hbd herr herre hprev
    rcases Nat.eq_or_lt_of_le he1 with hei | hei
    · -- error at the current record (e = i)
      subst hei
      rcases Nat.eq_zero_or_pos n with hn0 | hnpos
      · -- count 1: the erroring record is the last MSDU
        subst hn0
        cases prev with
        | none =>
          rw [popLoop_one_err_none BUF DESC recs i msdu st herre]
          refine ⟨by rw [hbi], by rw [hbi], fun _ _ => ⟨rfl, rfl, rfl⟩,
            fun pb _ hp => by simp at hp,
            fun h => absurd h (by omega), fun h _ => absurd h (by omega),
            fun h _ _ => absurd h (by omega), fun pb h _ _ => absurd h (by omega),
            fun h => absurd h (by omega), fun h => absurd h (by omega),
            fun h _ _ _ _ _ => absurd h (by omega),
            fun h _ _ => absurd h (by omega),
            ?_, ?_, ?_⟩
          · intro j hj hjlt hne
            omega
          · intro x hx hpb
            show (processLen BUF DESC st.store msdu (recs i).len).nxt x = st.store.nxt x
            rw [processLen_nxt]
          · intro x hx
            have hxm : x ≠ msdu := hbi ▸ hx i (by omega) (by omega)
            exact processLen_pktlen_other _ _ _ _ _ _ hxm
        | some pb =>
          rw [popLoop_one_err_some BUF DESC recs i msdu pb st herre]
          refine ⟨by rw [hbi], by rw [hbi], fun _ hp => by simp at hp,
            fun pb' _ hp => ?_,
            fun h => absurd h (by omega), fun h _ => absurd h (by omega),
            fun h _ _ => absurd h (by omega), fun pb' h _ _ => absurd h (by omega),
            fun h => absurd h (by omega), fun h => absurd h (by omega),
            fun h _ _ _ _ _ => absurd h (by omega),
            fun h _ _ => absurd h (by omega),
            ?_, ?_, ?_⟩
          · have hpp : pb' = pb := (Option.some.inj hp).symm
            subst hpp
            exact ⟨rfl, rfl, rfl, setNext_nxt_self _ _ _⟩
          · intro j hj hjlt hne
            omega
          · intro x hx hpb
            have hxpb : x ≠ pb := hpb rfl pb rfl
            show (setNext (processLen BUF DESC st.store msdu (recs i).len) pb none).nxt x
              = st.store.nxt x
            rw [setNext_nxt_other _ _ _ _ hxpb, processLen_nxt]
          · intro x hx
            have hxm : x ≠ msdu := hbi ▸ hx i (by omega) (by omega)
            show (setNext (processLen BUF DESC st.store msdu (recs i).len) pb none).pktlen x
              = st.store.pktlen x
            rw [setNext_pktlen]
            exact processLen_pktlen_other _ _ _ _ _ _ hxm
      · -- count ≥ 2: error at the first record of the window, splice and go on
        obtain ⟨m, rfl⟩ : ∃ m, n = m + 1 := ⟨n - 1, by omega⟩
        have hpop1 : findNb M (htt_paddr_trim_to_37 ((recs (i + 1)).paddr)) =
            some (bs (i + 1)) := hpop (i + 1) (by omega) (by omega)
        have hMpop : htt_rx_in_order_netbuf_pop st.tbl st.fillCnt
            ((recs (i + 1)).paddr) =
            (some (bs (i + 1)),
             tableOf (M.eraseP
               (fun x => x.paddr == htt_paddr_trim_to_37 ((recs (i + 1)).paddr))),
             st.fillCnt - 1) := by
          rw [hM]
          exact netbuf_pop_found _ _ _ _ hpop1
        have hokargs : ∀ st2 : PopSt,
            st2.tbl = tableOf (M.eraseP
              (fun x => x.paddr == htt_paddr_trim_to_37 ((recs (i + 1)).paddr))) →
            LoopOkOut recs bs (i + 1) (m + 1) st2
              (popLoop BUF DESC recs (m + 1) (i + 1) (bs (i + 1)) prev st2) := by
          intro st2 htbl2
          exact popLoop_ok BUF DESC recs bs (m + 1) (by omega) (i + 1) (bs (i + 1))
            prev st2 _ htbl2
            (keys_nodup_eraseP _ _ hkeys)
            (fun j hj hj2 => by
              rw [findNb_eraseP_ne _ _
                (Ne.symm (haddr (i + 1) j (by omega) (by omega) (by omega))) M]
              exact hpop j (by omega) (by omega))
            (fun j j' h1 h2 h3 => haddr j j' (by omega) h2 (by omega))
            rfl
            (fun j j' h1 h2 h3 => hbd j j' (by omega) h2 (by omega))
            (fun j h1 h2 => herr j (by omega) (by omega) (by omega))
        cases prev with
        | none =>
          rw [popLoop_more_err_none BUF DESC recs m i msdu st _ _ _ herre hMpop]
          have hout := hokargs
            { st with
              tbl := tableOf (M.eraseP
                (fun x => x.paddr == htt_paddr_trim_to_37 ((recs (i + 1)).paddr))),
              fillCnt := st.fillCnt - 1,
              store := processLen BUF DESC st.store msdu (recs i).len,
              head := some (bs (i + 1)),
              handled := st.handled ++ [msdu], freed := st.freed ++ [msdu] } rfl
          refine ⟨?_, ?_, fun h _ => absurd h (by omega),
            fun pb' h _ => absurd h (by omega),
            fun _ => hout.ret_eq, ?_, fun _ _ _ => hout.head_eq,
            fun pb' _ _ hp => by simp at hp, ?_, ?_, ?_,
            fun _ h _ => absurd h (by omega), ?_, ?_, ?_⟩
          · rw [hout.handled_eq, hbi]
          · rw [hout.freed_eq, hbi]
          · intro _ hg
            rcases hg with h | h
            · omega
            · exact absurd rfl h
          · intro _
            rw [if_neg (by omega : ¬ i = i + (m + 1 + 1) - 1), hout.tail_eq]
            congr 2
            omega
          · intro _
            rw [if_neg (by omega : ¬ i = i + (m + 1 + 1) - 1),
              show i + (m + 1 + 1) - 1 = i + 1 + (m + 1) - 1 from by omega]
            exact hout.last_none
          · intro _ j hj hjlt hje hje1
            exact hout.links j (by omega) (by omega)
          · intro j hj hjlt hje
            exact hout.lens j (by omega) (by omega)
          · intro x hx hpbg
            rw [hout.nxt_frame x (fun j h1 h2 => hx j (by omega) (by omega))]
            show (processLen BUF DESC st.store msdu (recs i).len).nxt x = st.store.nxt x
            rw [processLen_nxt]
          · intro x hx
            rw [hout.len_frame x (fun j h1 h2 => hx j (by omega) (by omega))]
            have hxm : x ≠ msdu := hbi ▸ hx i (by omega) (by omega)
            exact processLen_pktlen_other _ _ _ _ _ _ hxm
        | some pb =>
          have hpbw : ∀ j, i ≤ j → j < i + (m + 1 + 1) → pb ≠ bs j := hprev pb rfl
          rw [popLoop_more_err_some BUF DESC recs m i msdu pb st _ _ _ herre hMpop]
          have hout := hokargs
            { st with
              tbl := tableOf (M.eraseP
                (fun x => x.paddr == htt_paddr_trim_to_37 ((recs (i + 1)).paddr))),
              fillCnt := st.fillCnt - 1,
              store := setNext (processLen BUF DESC st.store msdu (recs i).len) pb
                (some (bs (i + 1))),
              handled := st.handled ++ [msdu], freed := st.freed ++ [msdu] } rfl
          refine ⟨?_, ?_, fun h _ => absurd h (by omega),
            fun pb' h _ => absurd h (by omega),
            fun _ => hout.ret_eq, fun _ _ => hout.head_eq,
            fun _ _ hp => by simp at hp, ?_, ?_, ?_, ?_,
            fun _ h _ => absurd h (by omega), ?_, ?_, ?_⟩
          · rw [hout.handled_eq, hbi]
          · rw [hout.freed_eq, hbi]
          · intro pb' _ _ hp
            have hpp : pb' = pb := (Option.some.inj hp).symm
            rw [hpp, hout.nxt_frame pb (fun j h1 h2 => hpbw j (by omega) (by omega))]
            exact setNext_nxt_self _ _ _
          · intro _
            rw [if_neg (by omega : ¬ i = i + (m + 1 + 1) - 1), hout.tail_eq]
            congr 2
            omega
          · intro _
            rw [if_neg (by omega : ¬ i = i + (m + 1 + 1) - 1),
              show i + (m + 1 + 1) - 1 = i + 1 + (m + 1) - 1 from by omega]
            exact hout.last_none
          · intro _ j hj hjlt hje hje1
            exact hout.links j (by omega) (by omega)
          · intro j hj hjlt hje
            exact hout.lens j (by omega) (by omega)
          · intro x hx hpbg
            have hxpb : x ≠ pb := hpbg rfl pb rfl
            rw [hout.nxt_frame x (fun j h1 h2 => hx j (by omega) (by omega))]
            show (setNext (processLen BUF DESC st.store msdu (recs i).len) pb
              (some (bs (i + 1)))).nxt x = st.store.nxt x
            rw [setNext_nxt_other _ _ _ _ hxpb, processLen_nxt]
          · intro x hx
            rw [hout.len_frame x (fun j h1 h2 => hx j (by omega) (by omega))]
            have hxm : x ≠ msdu := hbi ▸ hx i (by omega) (by omega)
            show (setNext (processLen BUF DESC st.store msdu (recs i).len) pb
              (some (bs (i + 1)))).pktlen x = st.store.pktlen x
            rw [setNext_pktlen]
            exact processLen_pktlen_other _ _ _ _ _ _ hxm
    · -- the error is further along: this record is clean, step and recurse
      obtain ⟨m, rfl⟩ : ∃ m, n = m + 1 := ⟨n - 1, by omega⟩
      have herr_i : micErrNoDiscard (recs i) = false :=
        herr i (by omega) (by omega) (by omega)
      have hpop1 : findNb M (htt_paddr_trim_to_37 ((recs (i + 1)).paddr)) =
          some (bs (i + 1)) := hpop (i + 1) (by omega) (by omega)
      have hMpop : htt_rx_in_order_netbuf_pop st.tbl st.fillCnt
          ((recs (i + 1)).paddr) =
          (some (bs (i + 1)),
           tableOf (M.eraseP
             (fun x => x.paddr == htt_paddr_trim_to_37 ((recs (i + 1)).paddr))),
           st.fillCnt - 1) := by
        rw [hM]
        exact netbuf_pop_found _ _ _ _ hpop1
      rw [popLoop_more_noerr BUF DESC recs m i msdu prev st _ _ _ herr_i hMpop]
      have hout := ih (by omega) e (i + 1) (bs (i + 1)) (some msdu)
        { st with
          tbl := tableOf (M.eraseP
            (fun x => x.paddr == htt_paddr_trim_to_37 ((recs (i + 1)).paddr))),
          fillCnt := st.fillCnt - 1,
          store := setNext (processLen BUF DESC st.store msdu (recs i).len)
            msdu (some (bs (i + 1))) }
        (M.eraseP (fun x => x.paddr == htt_paddr_trim_to_37 ((recs (i + 1)).paddr)))
        rfl
        (keys_nodup_eraseP _ _ hkeys)
        (by omega) (by omega)
        (fun j hj hj2 => by
          rw [findNb_eraseP_ne _ _
            (Ne.symm (haddr (i + 1) j (by omega) (by omega) (by omega))) M]
          exact hpop j (by omega) (by omega))
        (fun j j' h1 h2 h3 => haddr j j' (by omega) h2 (by omega))
        rfl
        (fun j j' h1 h2 h3 => hbd j j' (by omega) h2 (by omega))
        (fun j h1 h2 h3 => herr j (by omega) (by omega) h3)
        herre
        (fun pb hp j h1 h2 => by
          obtain rfl : pb = msdu := (Option.some.inj hp).symm
          exact hbi ▸ (hbd i j (by omega) (by omega) (by omega)))
      have hbsout : ∀ j', i + 1 ≤ j' → j' < i + 1 + (m + 1) → bs i ≠ bs j' :=
        fun j' h1 h2 => hbd i j' (by omega) (by omega) (by omega)
      have hxmof : ∀ x, (∀ j, i ≤ j → j < i + (m + 1 + 1) → x ≠ bs j) → x ≠ msdu :=
        fun x hx => hbi ▸ hx i (by omega) (by omega)
      refine ⟨?_, ?_, fun h _ => absurd h (by omega),
        fun pb' h _ => absurd h (by omega),
        ?_, ?_, fun _ hcontra _ => absurd hcontra (by omega),
        fun pb' _ hcontra _ => absurd hcontra (by omega),
        ?_, ?_, ?_, ?_, ?_, ?_, ?_⟩
      · rw [hout.handled_eq]
      · rw [hout.freed_eq]
      · -- ret
        intro _
        rcases Nat.eq_zero_or_pos m with hm0 | hmpos
        · subst hm0
          obtain rfl : e = i + 1 := by omega
          exact (hout.sole_some msdu rfl rfl).2.2.1
        · exact hout.ret_eq (by omega)
      · -- head_keep
        intro _ _
        rcases Nat.eq_zero_or_pos m with hm0 | hmpos
        · subst hm0
          obtain rfl : e = i + 1 := by omega
          exact (hout.sole_some msdu rfl rfl).1
        · exact hout.head_keep (by omega) (Or.inr (by simp))
      · -- tail_eq
        intro _
        rcases Nat.eq_zero_or_pos m with hm0 | hmpos
        · subst hm0
          obtain rfl : e = i + 1 := by omega
          rw [if_pos (by omega : i + 1 = i + (0 + 1 + 1) - 1)]
          rw [(hout.sole_some msdu rfl rfl).2.1, ← hbi]
          congr 2
        · by_cases hel : e = i + (m + 1 + 1) - 1
          · rw [if_pos hel]
            have := hout.tail_eq (by omega)
            rw [if_pos (by omega : e = i + 1 + (m + 1) - 1)] at this
            rw [this]
            congr 2
            omega
          · rw [if_neg hel]
            have := hout.tail_eq (by omega)
            rw [if_neg (by omega : ¬ e = i + 1 + (m + 1) - 1)] at this
            rw [this]
            congr 2
            omega
      · -- last_none
        intro _
        rcases Nat.eq_zero_or_pos m with hm0 | hmpos
        · subst hm0
          obtain rfl : e = i + 1 := by omega
          rw [if_pos (by omega : i + 1 = i + (0 + 1 + 1) - 1),
            show i + (0 + 1 + 1) - 2 = i from by omega, hbi]
          exact (hout.sole_some msdu rfl rfl).2.2.2
        · by_cases hel : e = i + (m + 1 + 1) - 1
          · rw [if_pos hel,
              show i + (m + 1 + 1) - 2 = i + 1 + (m + 1) - 2 from by omega]
            have := hout.last_none (by omega)
            rw [if_pos (by omega : e = i + 1 + (m + 1) - 1)] at this
            exact this
          · rw [if_neg hel,
              show i + (m + 1 + 1) - 1 = i + 1 + (m + 1) - 1 from by omega]
            have := hout.last_none (by omega)
            rw [if_neg (by omega : ¬ e = i + 1 + (m + 1) - 1)] at this
            exact this
      · -- links
        intro _ j hj hjlt hje hje1
        rcases Nat.eq_or_lt_of_le hj with hji | hji
        · obtain rfl : j = i := hji.symm
          rw [hout.nxt_frame (bs j) hbsout
            (fun hcontra pb2 hp2 => absurd hcontra (by omega))]
          show (setNext (processLen BUF DESC st.store msdu (recs j).len)
            msdu (some (bs (j + 1)))).nxt (bs j) = some (bs (j + 1))
          rw [hbi]
          exact setNext_nxt_self _ _ _
        · exact hout.links (by omega) j (by omega) (by omega) hje hje1
      · -- splice
        intro _ hesp hesp2
        rcases Nat.eq_or_lt_of_le hesp with hei1 | hei1
        · obtain rfl : e = i + 1 := hei1.symm
          rw [show i + 1 - 1 = i from by omega, hbi]
          exact hout.prev_splice msdu (by omega) rfl rfl
        · exact hout.splice (by omega) (by omega) (by omega)
      · -- lens
        intro j hj hjlt hje
        rcases Nat.eq_or_lt_of_le hj with hji | hji
        · obtain rfl : j = i := hji.symm
          rw [hout.len_frame (bs j) hbsout]
          show (setNext (processLen BUF DESC st.store msdu (recs j).len)
            msdu (some (bs (j + 1)))).pktlen (bs j) = (recs j).len
          rw [setNext_pktlen, hbi]
          exact processLen_pktlen_self _ _ _ _ _
        · exact hout.lens j (by omega) (by omega) hje
      · -- nxt_frame
        intro x hx hpbg
        have hxm : x ≠ msdu := hxmof x hx
        rw [hout.nxt_frame x (fun j h1 h2 => hx j (by omega) (by omega))
          (fun _ pb2 hp2 => by
            obtain rfl : pb2 = msdu := (Option.some.inj hp2).symm
            exact hxm)]
        show (setNext (processLen BUF DESC st.store msdu (recs i).len)
          msdu (some (bs (i + 1)))).nxt x = st.store.nxt x
        rw [setNext_nxt_other _ _ _ _ hxm, processLen_nxt]
      · -- len_frame
        intro x hx
        have hxm : x ≠ msdu := hxmof x hx
        rw [hout.len_frame x (fun j h1 h2 => hx j (by omega) (by omega))]
        show (setNext (processLen BUF DESC st.store msdu (recs i).len)
          msdu (some (bs (i + 1)))).pktlen x = st.store.pktlen x
        rw [setNext_pktlen]
        exact processLen_pktlen_other _ _ _ _ _ _ hxm

/-- Adjacent elements linked (no claim about the last element's `next`). -/
def linked (nxt : Nat → Option Nat) : List Nat → Prop
  | [] => True
  | [_] => True
  | b :: b2 :: rest => nxt b = some b2 ∧ linked nxt (b2 :: rest)

lemma linked_range' (nxt : Nat → Option Nat) (bs : Nat → Nat) :
    ∀ (n i : Nat),
      (∀ j, i ≤ j → j + 1 < i + n → nxt (bs j) = some (bs (j + 1))) →
      linked nxt ((List.range' i n).map bs) := by
  intro n
  induction n with
  | zero =>
    intro i _
    simp [linked]
  | succ n ih =>
    intro i hlinks
    rcases Nat.eq_zero_or_pos n with hn0 | hnpos
    · subst hn0
      simp [List.range'_one, linked]
    · obtain ⟨m, rfl⟩ : ∃ m, n = m + 1 := ⟨n - 1, by omega⟩
      rw [List.range'_succ, List.map_cons]
      have hrest := ih (i + 1) (fun j hj hjlt => hlinks j (by omega) (by omega))
      rw [List.range'_succ, List.map_cons] at hrest ⊢
      exact ⟨hlinks i (by omega) (by omega), hrest⟩

lemma linked_append_chainOk (nxt : Nat → Option Nat) :
    ∀ (l1 : List Nat) (a b : Nat) (l2 : List Nat),
      linked nxt (l1 ++ [a]) → nxt a = some b → chainOk nxt (b :: l2) →
      chainOk nxt ((l1 ++ [a]) ++ b :: l2) := by
  intro l1
  induction l1 with
  | nil =>
    intro a b l2 _ hab hc2
    exact ⟨hab, hc2⟩
  | cons c l1 ih =>
    intro a b l2 hlk hab hc2
    cases l1 with
    | nil =>
      obtain ⟨hca, _⟩ := hlk
      exact ⟨hca, hab, hc2⟩
    | cons d l1' =>
      obtain ⟨hcd, hrest⟩ := hlk
      have := ih a b l2 hrest hab hc2
      exact ⟨hcd, this⟩

lemma range'_append_two (s m n : Nat) :
    List.range' s m ++ List.range' (s + m) n = List.range' s (m + n) := by
  have := List.range'_append s m n 1
  simp only [mul_one, one_mul] at this
  rw [this, Nat.add_comm]

/-- Splitting `range N` at a removed index `e`. -/
lemma filter_range_ne (N e : Nat) (he : e < N) :
    (List.range N).filter (fun j => j != e) =
      List.range' 0 e ++ List.range' (e + 1) (N - 1 - e) := by
  have h2 := range'_append_two 0 e (N - e)
  rw [Nat.zero_add] at h2
  have hsplit : List.range N = List.range' 0 e ++ List.range' e (N - e) :=
    calc List.range N = List.range' 0 N := List.range_eq_range' N
      _ = List.range' 0 (e + (N - e)) := by rw [show e + (N - e) = N from by omega]
      _ = List.range' 0 e ++ List.range' e (N - e) := h2.symm
  have hsplit2 : List.range' e (N - e) = e :: List.range' (e + 1) (N - 1 - e) := by
    obtain ⟨k, hk⟩ : ∃ k, N - e = k + 1 := ⟨N - e - 1, by omega⟩
    rw [hk, List.range'_succ, show k = N - 1 - e from by omega]
  rw [hsplit, hsplit2, List.filter_append]
  congr 1
  · apply List.filter_eq_self.mpr
    intro a ha
    rw [List.mem_range'_1] at ha
    simp
    omega
  · rw [List.filter_cons_of_neg (by simp)]
    apply List.filter_eq_self.mpr
    intro a ha
    rw [List.mem_range'_1] at ha
    simp
    omega

/-- C4: given an in-order indication message declaring `N > 1` MSDUs of
which exactly the one at index `e` has the MIC/decode-error flag set with
the discard flag clear, `htt_rx_amsdu_rx_in_order_pop_ll` invokes the error
handler for exactly that buffer, frees it, and returns 1 with a chain of
exactly `N - 1` buffers that excludes the erroring buffer, the remaining
buffers still linked in message order. -/
theorem in_order_pop_one_error (BUF DESC : Int) (msg : InOrdMsg)
    (M : List HashEntry) (fc : Nat) (store : NbufStore) (bs : Nat → Nat)
    (e : Nat) (res : PopSt)
    (hres : res = htt_rx_amsdu_rx_in_order_pop_ll BUF DESC msg (tableOf M) fc store)
    (hoff : msg.offloadInd = false)
    (hN : 2 ≤ msg.msduCount)
    (he : e < msg.msduCount)
    (hkeys : (M.map (·.paddr)).Nodup)
    (hpop : ∀ j, j < msg.msduCount →
      findNb M (htt_paddr_trim_to_37 ((msg.recs j).paddr)) = some (bs j))
    (haddr : ∀ j', j' < msg.msduCount → ∀ j, j < j' →
      htt_paddr_trim_to_37 ((msg.recs j).paddr) ≠
        htt_paddr_trim_to_37 ((msg.recs j').paddr))
    (hbd : ∀ j', j' < msg.msduCount → ∀ j, j < j' → bs j ≠ bs j')
    (herr : ∀ j, j < msg.msduCount → j ≠ e → micErrNoDiscard (msg.recs j) = false)
    (herre : micErrNoDiscard (msg.recs e) = true) :
    res.ret = 1 ∧
    res.handled = [bs e] ∧
    res.freed = [bs e] ∧
    res.head = some (bs (if e = 0 then 1 else 0)) ∧
    res.tail = some (bs (if e = msg.msduCount - 1 then msg.msduCount - 2
      else msg.msduCount - 1)) ∧
    chainOk res.store.nxt
      (((List.range msg.msduCount).filter (fun j => j != e)).map bs) ∧
    (((List.range msg.msduCount).filter (fun j => j != e)).map bs).length =
      msg.msduCount - 1 ∧
    bs e ∉ ((List.range msg.msduCount).filter (fun j => j != e)).map bs ∧
    (∀ j, j < msg.msduCount → j ≠ e →
      res.store.pktlen (bs j) = (msg.recs j).len) := by
  have hMpop : htt_rx_in_order_netbuf_pop (tableOf M) fc ((msg.recs 0).paddr) =
      (some (bs 0),
       tableOf (M.eraseP
         (fun x => x.paddr == htt_paddr_trim_to_37 ((msg.recs 0).paddr))),
       fc - 1) :=
    netbuf_pop_found _ _ _ _ (hpop 0 (by omega))
  rw [htt_rx_amsdu_rx_in_order_pop_ll, if_neg (by simp [hoff]), hMpop] at hres
  simp only [] at hres
  have hout := popLoop_err BUF DESC msg.recs bs msg.msduCount (by omega) e 0 (bs 0)
    none
    { tbl := tableOf (M.eraseP
        (fun x => x.paddr == htt_paddr_trim_to_37 ((msg.recs 0).paddr))),
      fillCnt := fc - 1, store := store, head := some (bs 0), tail := none,
      freed := [], handled := [], ret := 1 }
    (M.eraseP (fun x => x.paddr == htt_paddr_trim_to_37 ((msg.recs 0).paddr)))
    rfl
    (keys_nodup_eraseP _ _ hkeys)
    (by omega) (by omega)
    (fun j hj hj2 => by
      rw [findNb_eraseP_ne _ _ (Ne.symm (haddr j (by omega) 0 (by omega))) M]
      exact hpop j (by omega))
    (fun j j' h1 h2 h3 => haddr j' (by omega) j h2)
    rfl
    (fun j j' _ h2 h3 => hbd j' (by omega) j h2)
    (fun j _ h2 h3 => herr j (by omega) h3)
    herre
    (fun pb hp => by simp at hp)
  rw [← hres] at hout
  have hkseq := filter_range_ne msg.msduCount e he
  have hlen : (((List.range msg.msduCount).filter (fun j => j != e)).map bs).length
      = msg.msduCount - 1 := by
    rw [hkseq]
    simp
    omega
  have hnotmem : bs e ∉ ((List.range msg.msduCount).filter (fun j => j != e)).map bs := by
    intro hmem
    obtain ⟨j, hjmem, hjeq⟩ := List.mem_map.mp hmem
    have hjf := List.mem_filter.mp hjmem
    have hjr : j < msg.msduCount := List.mem_range.mp hjf.1
    have hjne : j ≠ e := by simpa using hjf.2
    rcases Nat.lt_or_ge j e with h | h
    · exact hbd e he j h hjeq
    · exact hbd j hjr e (by omega) hjeq.symm
  refine ⟨hout.ret_eq (by omega), by simpa using hout.handled_eq,
    by simpa using hout.freed_eq, ?_, ?_, ?_, hlen, hnotmem, ?_⟩
  · -- head
    by_cases he0 : e = 0
    · subst he0
      rw [if_pos rfl]
      exact hout.head_repl (by omega) rfl rfl
    · rw [if_neg he0]
      exact hout.head_keep (by omega) (Or.inl (by omega))
  · -- tail
    by_cases hel : e = msg.msduCount - 1
    · rw [if_pos hel]
      have := hout.tail_eq (by omega)
      rw [if_pos (by omega : e = 0 + msg.msduCount - 1)] at this
      rw [this]
      congr 2
      omega
    · rw [if_neg hel]
      have := hout.tail_eq (by omega)
      rw [if_neg (by omega : ¬ e = 0 + msg.msduCount - 1)] at this
      rw [this]
      congr 2
      omega
  · -- chain
    rw [hkseq, List.map_append]
    by_cases he0 : e = 0
    · subst he0
      simp only [List.range'_zero , List.map_nil, List.nil_append]
      exact chainOk_range' res.store.nxt bs (msg.msduCount - 1 - 0) 1
        (fun j hj hjlt =>
          hout.links (by omega) j (by omega) (by omega) (by omega) (by omega))
        (fun hge => by
          have := hout.last_none (by omega)
          rw [if_neg (by omega : ¬ 0 = 0 + msg.msduCount - 1)] at this
          rw [show 1 + (msg.msduCount - 1 - 0) - 1 = 0 + msg.msduCount - 1 from
            by omega]
          exact this)
    · by_cases hel : e = msg.msduCount - 1
      · have hz : msg.msduCount - 1 - e = 0 := by omega
        rw [hz]
        simp only [List.range'_zero , List.map_nil, List.append_nil]
        exact chainOk_range' res.store.nxt bs e 0
          (fun j hj hjlt =>
            hout.links (by omega) j (by omega) (by omega) (by omega) (by omega))
          (fun hge => by
            have := hout.last_none (by omega)
            rw [if_pos (by omega : e = 0 + msg.msduCount - 1)] at this
            rw [show 0 + e - 1 = 0 + msg.msduCount - 2 from by omega]
            exact this)
      · -- middle: 1 ≤ e ≤ N - 2
        obtain ⟨e', rfl⟩ : ∃ e', e = e' + 1 := ⟨e - 1, by omega⟩
        obtain ⟨k, hk⟩ : ∃ k, msg.msduCount - 1 - (e' + 1) = k + 1 :=
          ⟨msg.msduCount - 1 - (e' + 1) - 1, by omega⟩
        have hl1 : List.range' 0 (e' + 1) = List.range' 0 e' ++ [e'] := by
          have := List.range'_1_concat 0 e'
          simpa using this
        rw [hl1, hk, List.range'_succ, List.map_append, List.map_cons]
        simp only [List.map_cons, List.map_nil]
        apply linked_append_chainOk
        · have := linked_range' res.store.nxt bs (e' + 1) 0
            (fun j hj hjlt =>
              hout.links (by omega) j (by omega) (by omega) (by omega) (by omega))
          rw [hl1, List.map_append] at this
          simpa using this
        · have := hout.splice (by omega) (by omega) (by omega)
          rw [show e' + 1 - 1 = e' from by omega] at this
          exact this
        · have := chainOk_range' res.store.nxt bs (msg.msduCount - 1 - (e' + 1))
            (e' + 1 + 1)
            (fun j hj hjlt =>
              hout.links (by omega) j (by omega) (by omega) (by omega) (by omega))
            (fun hge => by
              have h2 := hout.last_none (by omega)
              rw [if_neg (by omega : ¬ e' + 1 = 0 + msg.msduCount - 1)] at h2
              rw [show e' + 1 + 1 + (msg.msduCount - 1 - (e' + 1)) - 1 =
                0 + msg.msduCount - 1 from by omega]
              exact h2)
          rw [hk, List.range'_succ, List.map_cons] at this
          exact this
  · -- lengths
    intro j hj hje
    exact hout.lens j (by omega) (by omega) hje

/-- Witness for C4: a 3-MSDU message whose middle record carries the
MIC-error flag with discard clear; buffers 11, 22, 33 posted at stripped
addresses 100, 200, 300.  Buffer 22 is handled and freed; 11 and 33 remain
chained. -/
theorem in_order_pop_one_error_witness :
    micErrNoDiscard (⟨200, 60, true, false⟩ : InOrdRecord) = true ∧
    (let msg : InOrdMsg :=
      ⟨false, false, 3,
        fun j => if j = 0 then ⟨100, 50, false, false⟩
                 else if j = 1 then ⟨200, 60, true, false⟩
                 else ⟨300, 70, false, false⟩⟩
     let M : List HashEntry := [⟨100, 11⟩, ⟨200, 22⟩, ⟨300, 33⟩]
     let bs : Nat → Nat := fun j => if j = 0 then 11 else if j = 1 then 22 else 33
     let res := htt_rx_amsdu_rx_in_order_pop_ll 2048 256 msg (tableOf M) 5
       ⟨fun _ => 0, fun _ => none⟩
     res.ret = 1 ∧
     res.handled = [bs 1] ∧
     res.freed = [bs 1] ∧
     res.head = some (bs 0) ∧
     res.tail = some (bs 2) ∧
     chainOk res.store.nxt
       (((List.range msg.msduCount).filter (fun j => j != 1)).map bs) ∧
     (((List.range msg.msduCount).filter (fun j => j != 1)).map bs).length = 2 ∧
     bs 1 ∉ ((List.range msg.msduCount).filter (fun j => j != 1)).map bs ∧
     (∀ j, j < msg.msduCount → j ≠ 1 →
       res.store.pktlen (bs j) = (msg.recs j).len)) := by
  refine ⟨by decide, ?_⟩
  have h := in_order_pop_one_error 2048 256
    ⟨false, false, 3,
      fun j => if j = 0 then ⟨100, 50, false, false⟩
               else if j = 1 then ⟨200, 60, true, false⟩
               else ⟨300, 70, false, false⟩⟩
    [⟨100, 11⟩, ⟨200, 22⟩, ⟨300, 33⟩] 5 ⟨fun _ => 0, fun _ => none⟩
    (fun j => if j = 0 then 11 else if j = 1 then 22 else 33) 1 _
    rfl rfl (by decide) (by decide) (by decide) (by decide) (by decide)
    (by decide) (by decide) (by decide)
  exact h

/-- Conclusions of a `popLoop` run starting at index `i` in which the pops
of records `i+1 .. f-1` succeed and the pop of record `f` fails: the loop
returns 0 with a null tail, the head and the handled/freed lists are
untouched, the already-popped buffers are linked in order with their
lengths set, and the next pointer of every buffer not linked by this run —
in particular the last popped one, `bs (f-1)` — keeps its previous value. -/
structure LoopFailOut (recs : Nat → InOrdRecord) (bs : Nat → Nat) (i f : Nat)
    (st st' : PopSt) : Prop where
  ret_eq : st'.ret = 0
  tail_eq : st'.tail = none
  head_eq : st'.head = st.head
  handled_eq : st'.handled = st.handled
  freed_eq : st'.freed = st.freed
  links : ∀ j, i ≤ j → j + 1 < f → st'.store.nxt (bs j) = some (bs (j + 1))
  lens : ∀ j, i ≤ j → j < f → st'.store.pktlen (bs j) = (recs j).len
  nxt_frame : ∀ x, (∀ j, i ≤ j → j + 1 < f → x ≠ bs j) →
    st'.store.nxt x = st.store.nxt x
  len_frame : ∀ x, (∀ j, i ≤ j → j < f → x ≠ bs j) →
    st'.store.pktlen x = st.store.pktlen x

lemma popLoop_popfail (BUF DESC : Int) (recs : Nat → InOrdRecord) (bs : Nat → Nat) :
    ∀ d n (i msdu : Nat) (prev : Option Nat) (st : PopSt) (M : List HashEntry)
      (f : Nat),
      f = i + 1 + d →
      f < i + n →
      st.tbl = tableOf M →
      (M.map (·.paddr)).Nodup →
      (∀ j, i < j → j < f →
        findNb M (htt_paddr_trim_to_37 ((recs j).paddr)) = some (bs j)) →
      findNb M (htt_paddr_trim_to_37 ((recs f).paddr)) = none →
      (∀ j j', i < j → j < j' → j' < f →
        htt_paddr_trim_to_37 ((recs j).paddr) ≠
          htt_paddr_trim_to_37 ((recs j').paddr)) →
      bs i = msdu →
      (∀ j j', i ≤ j → j < j' → j' < f → bs j ≠ bs j') →
      (∀ j, i ≤ j → j < f → micErrNoDiscard (recs j) = false) →
      LoopFailOut recs bs i f st (popLoop BUF DESC recs n i msdu prev st) := by
  intro d
  induction d with
  | zero =>
    intro n i msdu prev st M f hf hlt hst hnodup hpop hfail haddr hbs hbd herr
    subst hf
    obtain ⟨m, rfl⟩ : ∃ m, n = m + 1 + 1 := ⟨n - 2, by omega⟩
    have hmiss : htt_rx_in_order_netbuf_pop st.tbl st.fillCnt
        ((recs (i + 1)).paddr) =
        (none,
         tableOf (M.eraseP
           (fun e => e.paddr == htt_paddr_trim_to_37 ((recs (i + 1)).paddr))),
         st.fillCnt - 1) := by
      rw [hst]
      exact netbuf_pop_miss M st.fillCnt _ (by simpa using hfail)
    rw [popLoop_fail_noerr BUF DESC recs m i msdu prev st _ _
      (herr i (by omega) (by omega)) hmiss]
    refine ⟨rfl, rfl, rfl, rfl, rfl, ?_, ?_, ?_, ?_⟩
    · intro j hj hj2
      omega
    · intro j hj hj2
      have hji : j = i := by omega
      subst hji
      dsimp only
      rw [hbs]
      exact processLen_pktlen_self BUF DESC st.store msdu (recs j).len
    · intro x hx
      dsimp only
      rw [processLen_nxt]
    · intro x hx
      dsimp only
      have hxi : x ≠ msdu := by
        rw [← hbs]
        exact hx i (by omega) (by omega)
      exact processLen_pktlen_other BUF DESC st.store msdu _ x hxi
  | succ d ih =>
    intro n i msdu prev st M f hf hlt hst hnodup hpop hfail haddr hbs hbd herr
    obtain ⟨m, rfl⟩ : ∃ m, n = m + 1 + 1 := ⟨n - 2, by omega⟩
    have hpop1 : findNb M (htt_paddr_trim_to_37 ((recs (i + 1)).paddr)) =
        some (bs (i + 1)) := hpop (i + 1) (by omega) (by omega)
    have hfound : htt_rx_in_order_netbuf_pop st.tbl st.fillCnt
        ((recs (i + 1)).paddr) =
        (some (bs (i + 1)),
         tableOf (M.eraseP
           (fun e => e.paddr == htt_paddr_trim_to_37 ((recs (i + 1)).paddr))),
         st.fillCnt - 1) := by
      rw [hst]
      exact netbuf_pop_found M st.fillCnt _ _ hpop1
    rw [popLoop_more_noerr BUF DESC recs m i msdu prev st _ _ _
      (herr i (by omega) (by omega)) hfound]
    have out := ih (m + 1) (i + 1) (bs (i + 1)) (some msdu)
      { st with
        tbl := tableOf (M.eraseP
          (fun e => e.paddr == htt_paddr_trim_to_37 ((recs (i + 1)).paddr))),
        fillCnt := st.fillCnt - 1,
        store := setNext (processLen BUF DESC st.store msdu (recs i).len)
          msdu (some (bs (i + 1))) }
      (M.eraseP (fun e => e.paddr == htt_paddr_trim_to_37 ((recs (i + 1)).paddr)))
      f (by omega) (by omega) rfl
      (keys_nodup_eraseP _ _ hnodup)
      (fun j h1 h2 => by
        rw [findNb_eraseP_ne _ _
          (Ne.symm (haddr (i + 1) j (by omega) (by omega) (by omega))) M]
        exact hpop j (by omega) h2)
      (findNb_eraseP_none _ _ M hfail)
      (fun j j' h1 h2 h3 => haddr j j' (by omega) h2 h3)
      rfl
      (fun j j' h1 h2 h3 => hbd j j' (by omega) h2 h3)
      (fun j h1 h2 => herr j (by omega) h2)
    refine ⟨out.ret_eq, out.tail_eq, out.head_eq, out.handled_eq, out.freed_eq,
      ?_, ?_, ?_, ?_⟩
    · intro j hj hj2
      by_cases hji : j = i
      · subst hji
        rw [out.nxt_frame (bs j)
          (fun j' h1 h2 => hbd j j' (by omega) (by omega) (by omega))]
        dsimp only
        rw [hbs]
        exact setNext_nxt_self _ msdu _
      · exact out.links j (by omega) hj2
    · intro j hj hj2
      by_cases hji : j = i
      · subst hji
        rw [out.len_frame (bs j)
          (fun j' h1 h2 => hbd j j' (by omega) (by omega) h2)]
        dsimp only
        rw [setNext_pktlen, hbs]
        exact processLen_pktlen_self BUF DESC st.store msdu (recs j).len
      · exact out.lens j (by omega) hj2
    · intro x hx
      rw [out.nxt_frame x (fun j h1 h2 => hx j (by omega) h2)]
      dsimp only
      have hxi : x ≠ msdu := by
        rw [← hbs]
        exact hx i (by omega) (by omega)
      rw [setNext_nxt_other _ msdu _ x hxi, processLen_nxt]
    · intro x hx
      rw [out.len_frame x (fun j h1 h2 => hx j (by omega) h2)]
      dsimp only
      have hxi : x ≠ msdu := by
        rw [← hbs]
        exact hx i (by omega) (by omega)
      rw [setNext_pktlen]
      exact processLen_pktlen_other BUF DESC st.store msdu _ x hxi

/-- C10: if, partway through an indication message (after `f ≥ 1` buffers
were successfully popped), the pop of the next buffer by address fails,
`htt_rx_amsdu_rx_in_order_pop_ll` returns 0 with the tail set to NULL
while the head still points to the partial chain of already-popped
buffers, linked in order; the last popped buffer's next pointer is left at
whatever the store held before the call (never set by this call), so the
caller receives an inconsistent head/tail pair rather than a
well-terminated chain. -/
theorem in_order_pop_partial_on_pop_failure (BUF DESC : Int) (msg : InOrdMsg)
    (M : List HashEntry) (fc : Nat) (store : NbufStore) (bs : Nat → Nat)
    (f : Nat) (res : PopSt)
    (hres : res = htt_rx_amsdu_rx_in_order_pop_ll BUF DESC msg (tableOf M) fc store)
    (hoff : msg.offloadInd = false)
    (hf1 : 1 ≤ f)
    (hf2 : f < msg.msduCount)
    (hkeys : (M.map (·.paddr)).Nodup)
    (hpop : ∀ j, j < f →
      findNb M (htt_paddr_trim_to_37 ((msg.recs j).paddr)) = some (bs j))
    (hfail : findNb M (htt_paddr_trim_to_37 ((msg.recs f).paddr)) = none)
    (haddr : ∀ j', j' < f → ∀ j, j < j' →
      htt_paddr_trim_to_37 ((msg.recs j).paddr) ≠
        htt_paddr_trim_to_37 ((msg.recs j').paddr))
    (hbd : ∀ j', j' < f → ∀ j, j < j' → bs j ≠ bs j')
    (herr : ∀ j, j < f → micErrNoDiscard (msg.recs j) = false) :
    res.ret = 0 ∧
    res.tail = none ∧
    res.head = some (bs 0) ∧
    res.handled = [] ∧
    res.freed = [] ∧
    linked res.store.nxt ((List.range f).map bs) ∧
    (∀ j, j + 1 < f → res.store.nxt (bs j) = some (bs (j + 1))) ∧
    res.store.nxt (bs (f - 1)) = store.nxt (bs (f - 1)) ∧
    (∀ j, j < f → res.store.pktlen (bs j) = (msg.recs j).len) := by
  have hMpop : htt_rx_in_order_netbuf_pop (tableOf M) fc ((msg.recs 0).paddr) =
      (some (bs 0),
       tableOf (M.eraseP
         (fun x => x.paddr == htt_paddr_trim_to_37 ((msg.recs 0).paddr))),
       fc - 1) :=
    netbuf_pop_found _ _ _ _ (hpop 0 (by omega))
  rw [htt_rx_amsdu_rx_in_order_pop_ll, if_neg (by simp [hoff]), hMpop] at hres
  simp only [] at hres
  rw [hres]
  have out := popLoop_popfail BUF DESC msg.recs bs (f - 1) msg.msduCount 0 (bs 0)
    none
    { tbl := tableOf (M.eraseP
        (fun x => x.paddr == htt_paddr_trim_to_37 ((msg.recs 0).paddr))),
      fillCnt := fc - 1, store := store, head := some (bs 0), tail := none,
      freed := [], handled := [], ret := 1 }
    (M.eraseP (fun x => x.paddr == htt_paddr_trim_to_37 ((msg.recs 0).paddr)))
    f (by omega) (by omega) rfl
    (keys_nodup_eraseP _ _ hkeys)
    (fun j h1 h2 => by
      rw [findNb_eraseP_ne _ _ (Ne.symm (haddr j h2 0 (by omega))) M]
      exact hpop j h2)
    (findNb_eraseP_none _ _ M hfail)
    (fun j j' h1 h2 h3 => haddr j' h3 j h2)
    rfl
    (fun j j' h1 h2 h3 => hbd j' h3 j h2)
    (fun j h1 h2 => herr j h2)
  have hlinks : ∀ j, j + 1 < f →
      (popLoop BUF DESC msg.recs msg.msduCount 0 (bs 0) none
        { tbl := tableOf (M.eraseP
            (fun x => x.paddr == htt_paddr_trim_to_37 ((msg.recs 0).paddr))),
          fillCnt := fc - 1, store := store, head := some (bs 0), tail := none,
          freed := [], handled := [], ret := 1 }).store.nxt (bs j) =
        some (bs (j + 1)) :=
    fun j hj => out.links j (by omega) hj
  refine ⟨out.ret_eq, out.tail_eq, out.head_eq, out.handled_eq, out.freed_eq,
    ?_, hlinks, ?_, fun j hj => out.lens j (by omega) hj⟩
  · rw [List.range_eq_range']
    exact linked_range' _ bs f 0 (fun j hj hjlt => hlinks j (by omega))
  · exact out.nxt_frame (bs (f - 1))
      (fun j h1 h2 => Ne.symm (hbd (f - 1) (by omega) j (by omega)))

/-- Witness for C10: a 3-MSDU message whose first two buffers (11 at
stripped address 100, 22 at 200) pop fine but whose third address 300 is
absent from the hash list; the stale next pointer of buffer 22 still
reads 77, as in the input store. -/
theorem in_order_pop_partial_on_pop_failure_witness :
    findNb [⟨100, 11⟩, ⟨200, 22⟩] (htt_paddr_trim_to_37 300) = none ∧
    (let msg : InOrdMsg :=
      ⟨false, false, 3,
        fun j => if j = 0 then ⟨100, 50, false, false⟩
                 else if j = 1 then ⟨200, 60, false, false⟩
                 else ⟨300, 70, false, false⟩⟩
     let M : List HashEntry := [⟨100, 11⟩, ⟨200, 22⟩]
     let bs : Nat → Nat := fun j => if j = 0 then 11 else 22
     let res := htt_rx_amsdu_rx_in_order_pop_ll 2048 256 msg (tableOf M) 5
       ⟨fun _ => 0, fun _ => some 77⟩
     res.ret = 0 ∧
     res.tail = none ∧
     res.head = some (bs 0) ∧
     res.handled = [] ∧
     res.freed = [] ∧
     linked res.store.nxt ((List.range 2).map bs) ∧
     (∀ j, j + 1 < 2 → res.store.nxt (bs j) = some (bs (j + 1))) ∧
     res.store.nxt (bs 1) = some 77 ∧
     (∀ j, j < 2 → res.store.pktlen (bs j) = (msg.recs j).len)) := by
  refine ⟨by decide, ?_⟩
  have h := in_order_pop_partial_on_pop_failure 2048 256
    ⟨false, false, 3,
      fun j => if j = 0 then ⟨100, 50, false, false⟩
               else if j = 1 then ⟨200, 60, false, false⟩
               else ⟨300, 70, false, false⟩⟩
    [⟨100, 11⟩, ⟨200, 22⟩] 5 ⟨fun _ => 0, fun _ => some 77⟩
    (fun j => if j = 0 then 11 else 22) 2 _
    rfl rfl (by decide) (by decide) (by decide) (by decide) (by decide)
    (by decide) (by decide) (by decide)
  exact h

end HttRx
